import Mathlib

/-!
# Verification of the solvate-ai extraction pipeline core

This file gives a shallow embedding, in Lean 4, of the deterministic core of
the `solvate-ai` multi-agent extraction pipeline
(`backend/app/modules/extraction/...`), and proves or refutes the behavioural
claims about it.

Modelling conventions:
* JSON values (Python dicts produced by the LLM and passed between agents) are
  modelled by the mutual inductive types `Json`/`JsonList`/`JsonObj`; Python
  dicts are association lists in insertion order (Python dicts preserve
  insertion order and have unique keys).
* JSON numbers are modelled as integers (no claim depends on float rendering).
* Python truthiness is `pyTruthy`, Python `str()` is `pyStr` (string escaping
  inside `repr` of nested containers is not modelled; no claim depends on it).
* Python's bounded recursion in the sanitizer (`depth > 5` cap) is modelled by
  the structurally decreasing `gas` counter (`gas = 6 - depth`).
* Database tables are modelled as lists of rows; SQL `UPDATE`/`SELECT`
  statements become the corresponding list transformations.
-/

namespace Solvate

/-- A single-quote character, used when rendering Python `repr` strings. -/
def sq : String := String.mk [Char.ofNat 39]

/-- ASCII whitespace recognised by Python `str.strip` / regex whitespace. -/
def isPySpace (c : Char) : Bool :=
  c = ' ' || c = '\t' || c = '\n' || c = '\r' || c = Char.ofNat 11 || c = Char.ofNat 12

/-- Python `str.strip()` (ASCII whitespace). -/
def pyStrip (s : String) : String :=
  String.mk (((s.toList.dropWhile isPySpace).reverse.dropWhile isPySpace).reverse)

/-- Python `str.lower()` (ASCII case folding suffices for the data involved). -/
def pyLower (s : String) : String := String.mk (s.toList.map Char.toLower)

/-- Python `str.upper()`. -/
def pyUpper (s : String) : String := String.mk (s.toList.map Char.toUpper)

/-- Does `hay` start with `needle`? -/
def listStartsWith : List Char → List Char → Bool
  | _, [] => true
  | [], _ :: _ => false
  | c :: cs, d :: ds => c = d && listStartsWith cs ds

/-- Does `needle` occur as a contiguous sublist of `hay`? -/
def listContainsSub (hay needle : List Char) : Bool :=
  listStartsWith hay needle ||
    match hay with
    | [] => false
    | _ :: rest => listContainsSub rest needle

/-- Python `needle in hay` substring test. -/
def strContains (hay needle : String) : Bool :=
  listContainsSub hay.toList needle.toList

/-- Join a list of strings with a separator (Python `sep.join(xs)`). -/
def joinSep (sep : String) : List String → String
  | [] => ""
  | [x] => x
  | x :: rest => x ++ sep ++ joinSep sep rest

mutual
/-- JSON values as exchanged between the agents. -/
inductive Json where
  | null : Json
  | bool : Bool → Json
  | num : Int → Json
  | str : String → Json
  | arr : JsonList → Json
  | obj : JsonObj → Json
deriving DecidableEq

/-- A JSON array. -/
inductive JsonList where
  | nil : JsonList
  | cons : Json → JsonList → JsonList
deriving DecidableEq

/-- A Python dict: key/value pairs in insertion order. -/
inductive JsonObj where
  | nil : JsonObj
  | cons : String → Json → JsonObj → JsonObj
deriving DecidableEq
end

/-- Build a `JsonList` from a `List`. -/
def JsonList.ofList : List Json → JsonList
  | [] => .nil
  | j :: rest => .cons j (JsonList.ofList rest)

/-- Build a `JsonObj` from an association `List`. -/
def JsonObj.ofList : List (String × Json) → JsonObj
  | [] => .nil
  | (k, v) :: rest => .cons k v (JsonObj.ofList rest)

/-- The keys of a dict, in order. -/
def JsonObj.keys : JsonObj → List String
  | .nil => []
  | .cons k _ rest => k :: rest.keys

/-- The values of a dict, in order (Python `d.values()`). -/
def JsonObj.values : JsonObj → List Json
  | .nil => []
  | .cons _ v rest => v :: rest.values

/-- The underlying `List` of a JSON array. -/
def JsonList.toList : JsonList → List Json
  | .nil => []
  | .cons j rest => j :: rest.toList

/-- Python dict lookup `d.get(k)`: value at the (unique) key, if present. -/
def getKey (o : JsonObj) (k : String) : Option Json :=
  match o with
  | .nil => none
  | .cons k' v rest => if k' = k then some v else getKey rest k

/-- Python dict assignment `d[k] = v`: update in place if the key exists
(keeping its position), else append at the end. -/
def setKey (o : JsonObj) (k : String) (v : Json) : JsonObj :=
  match o with
  | .nil => .cons k v .nil
  | .cons k' v' rest =>
    if k' = k then .cons k v rest else .cons k' v' (setKey rest k v)

/-- Python truthiness of a JSON value (`bool(x)`). -/
def pyTruthy : Json → Bool
  | .null => false
  | .bool b => b
  | .num n => n != 0
  | .str s => s != ""
  | .arr .nil => false
  | .arr (.cons _ _) => true
  | .obj .nil => false
  | .obj (.cons _ _ _) => true

mutual
/-- Python `str(x)` on a JSON value.  For containers `str` equals `repr`. -/
def pyStr : Json → String
  | .null => "None"
  | .bool b => if b then "True" else "False"
  | .num n => toString n
  | .str s => s
  | .arr l => "[" ++ pyReprItems l ++ "]"
  | .obj o => "\x7b" ++ pyReprEntries o ++ "\x7d"

/-- Python `repr(x)` on a JSON value (strings are quoted). -/
def pyRepr : Json → String
  | .null => "None"
  | .bool b => if b then "True" else "False"
  | .num n => toString n
  | .str s => sq ++ s ++ sq
  | .arr l => "[" ++ pyReprItems l ++ "]"
  | .obj o => "\x7b" ++ pyReprEntries o ++ "\x7d"

/-- Comma-separated `repr`s of array items. -/
def pyReprItems : JsonList → String
  | .nil => ""
  | .cons j .nil => pyRepr j
  | .cons j rest => pyRepr j ++ ", " ++ pyReprItems rest

/-- Comma-separated `repr`s of dict entries. -/
def pyReprEntries : JsonObj → String
  | .nil => ""
  | .cons k v .nil => sq ++ k ++ sq ++ ": " ++ pyRepr v
  | .cons k v rest => sq ++ k ++ sq ++ ": " ++ pyRepr v ++ ", " ++ pyReprEntries rest
end

/-! ## Sanitizer (`agents/sanitizer.py`) -/

/-- Fields that should be plain strings (not MendelFact objects). -/
def PLAIN_STRING_FIELDS : List String :=
  ["product_name", "product_line", "wacker_sku", "product_url",
   "language", "manufacturer", "brand", "revision_date",
   "main_application",
   "wiaw_status", "sales_advisory"]

/-- Fields that should be a single MendelFact (not a list of MendelFacts). -/
def SINGLE_MENDELFACT_FIELDS : List String :=
  ["grade", "purity", "physical_form", "density", "flash_point",
   "temperature_range", "shelf_life", "cure_system", "un_number"]

/-- Fields that should be lists of plain strings. -/
def PLAIN_STRING_LIST_FIELDS : List String :=
  ["material_numbers", "chemical_components", "chemical_synonyms",
   "usage_restrictions", "packaging_options",
   "ghs_statements", "certifications", "global_inventories",
   "blocked_countries", "blocked_industries",
   "missing_attributes", "extraction_warnings"]

/-- Map full document type names to short codes. -/
def DOC_TYPE_MAP : List (String × String) :=
  [("technical data sheet", "TDS"),
   ("safety data sheet", "SDS"),
   ("raw product information", "RPI"),
   ("regulatory product information", "RPI"),
   ("certificate of analysis", "CoA"),
   ("brochure", "Brochure")]

/-- `DOC_TYPE_MAP.get(s)`. -/
def docTypeLookup (s : String) : Option String :=
  (DOC_TYPE_MAP.find? (fun kv => kv.1 = s)).map (·.2)

/-- `unwrap_value`: extract the plain value from a MendelFact-like dict.
Returns `none` for Python `None`. -/
def unwrap_value (j : Json) : Option String :=
  match j with
  | .obj o =>
    match getKey o "value" with
    | some .null => none
    | some v => some (pyStr v)
    | none => some (pyStr (.obj o))
  | .str s => some s
  | .null => none
  | v => some (pyStr v)

/-- Fix rule for `document_type`: full name → short code, else unchanged. -/
def docTypeFix (s : String) : Json :=
  match docTypeLookup (pyStrip (pyLower s)) with
  | some m => .str m
  | none => .str s

/-- One item's contribution when a plain-string field arrives as a list. -/
def plainStringPart (item : Json) : Option String :=
  match item with
  | .obj o =>
    match unwrap_value (.obj o) with
    | some s => if s != "" then some s else none
    | none => none
  | it => if pyTruthy it then some (pyStr it) else none

/-- Fix rule for plain-string fields: unwrap a MendelFact dict, join a list of
wrapped values with `"; "`, else keep. -/
def plainStringFix (val : Json) : Json :=
  match val with
  | .obj o =>
    if (getKey o "value").isSome then
      match unwrap_value (.obj o) with
      | some s => .str s
      | none => .null
    else .obj o
  | .arr items =>
    let parts := items.toList.filterMap plainStringPart
    if parts ≠ [] then .str (joinSep "; " parts) else .null
  | v => v

/-- Fix rule for single-MendelFact fields: a non-empty list collapses to its
first element when that element is a dict. -/
def singleFactFix (val : Json) : Json :=
  match val with
  | .arr (.cons first rest) =>
    match first with
    | .obj o => .obj o
    | _ => .arr (.cons first rest)
  | v => v

/-- The non-`None` entries of a dict rendered as `"k: v"` (used when a list
item is a dict without `value` or `name`). -/
def entryStrings : JsonObj → List String
  | .nil => []
  | .cons k v rest =>
    match v with
    | .null => entryStrings rest
    | w => (k ++ ": " ++ pyStr w) :: entryStrings rest

/-- Clean one item of a plain-string-list field, as in the source's loop body.
Returns `none` when the item is skipped. -/
def cleanListItem (item : Json) : Option String :=
  match item with
  | .null => none
  | .obj o =>
    let v : Option String :=
      match getKey o "value" with
      | some .null => none
      | some w => some (pyStr w)
      | none =>
        match getKey o "name" with
        | some w => some (pyStr w)
        | none => some (joinSep "; " (entryStrings o))
    match v with
    | some s => if s != "" then some s else none
    | none => none
  | .str s => some s
  | it => some (pyStr it)

/-- Fix rule for plain-string-list fields: null → `[]`, list → cleaned list of
strings, else keep. -/
def plainListFix (val : Json) : Json :=
  match val with
  | .null => .arr .nil
  | .arr items =>
    .arr (JsonList.ofList ((items.toList.filterMap cleanListItem).map Json.str))
  | v => v

/-- The MendelFact placeholder produced when `cas_numbers` is null. -/
def casPlaceholder : JsonObj :=
  JsonObj.ofList
    [("value", .null),
     ("source_section", .str "not found"),
     ("raw_string", .str "CAS number not found in document"),
     ("confidence", .str "low"),
     ("is_specification", .bool false)]

/-- One item of a `cas_numbers` list contributes its `value` (if a dict with a
truthy value) or itself (if a string). -/
def casItemValue (item : Json) : Option String :=
  match item with
  | .obj o =>
    match getKey o "value" with
    | some v => if pyTruthy v then some (pyStr v) else none
    | none => none
  | .str s => some s
  | _ => none

/-- Fix rule for `cas_numbers`: null → placeholder fact; list → joined single
fact keeping provenance of the first entry; else keep. -/
def casFix (val : Json) : Json :=
  match val with
  | .null => .obj casPlaceholder
  | .arr items =>
    let cas_values := items.toList.filterMap casItemValue
    let first_item := (items.toList.head?).getD (.obj .nil)
    if cas_values ≠ [] then
      .obj (JsonObj.ofList
        [("value", .str (joinSep ", " cas_values)),
         ("source_section",
           match first_item with
           | .obj o => (getKey o "source_section").getD (.str "Section 3")
           | _ => .str "Section 3"),
         ("raw_string", .str (joinSep ", " cas_values)),
         ("confidence",
           match first_item with
           | .obj o => (getKey o "confidence").getD (.str "high")
           | _ => .str "high"),
         ("is_specification", .bool true),
         ("test_method", .null)])
    else .obj casPlaceholder
  | v => v

/-- Map a function over the items of a JSON array. -/
def JsonList.mapItems (f : Json → Json) : JsonList → JsonList
  | .nil => .nil
  | .cons j rest => .cons (f j) (JsonList.mapItems f rest)

/-- Map a key-aware function over the values of a dict (Python's
`result[key] = fixup(val)` loop over `d.items()`; keys are unique in a Python
dict, so the rebuilt dict is the entrywise image). -/
def JsonObj.mapVals (f : String → Json → Json) : JsonObj → JsonObj
  | .nil => .nil
  | .cons k v rest => .cons k (f k v) (JsonObj.mapVals f rest)

/-- One step of `fix_dict`'s per-key dispatch.  `rec` is the recursive call at
`depth + 1` (supplied by `fixDictGas`); the source recurses only in the two
generic branches.  When `key = "document_type"` but the value is not a string,
the source's guard falls through to the generic branches, as here. -/
def fixValWith (rec : JsonObj → JsonObj) (key : String) (val : Json) : Json :=
  if key = "document_type" then
    match val with
    | .str s => docTypeFix s
    | .obj o => .obj (rec o)
    | .arr items =>
      .arr (items.mapItems (fun j => match j with | .obj o => .obj (rec o) | it => it))
    | v => v
  else if key ∈ PLAIN_STRING_FIELDS then plainStringFix val
  else if key ∈ SINGLE_MENDELFACT_FIELDS then singleFactFix val
  else if key ∈ PLAIN_STRING_LIST_FIELDS then plainListFix val
  else if key = "cas_numbers" then casFix val
  else
    match val with
    | .obj o => .obj (rec o)
    | .arr items =>
      .arr (items.mapItems (fun j => match j with | .obj o => .obj (rec o) | it => it))
    | v => v

/-- `fix_dict(d, depth)` with `gas = 6 - depth`: the source caps recursion at
`depth > 5`, so `gas = 0` is exactly the cap. -/
def fixDictGas : Nat → JsonObj → JsonObj
  | 0, d => d
  | gas + 1, d => d.mapVals (fixValWith (fixDictGas gas))

/-- `sanitize_extraction_json`: fix common LLM output-shape errors before
schema validation (top-level call is at depth 0, i.e. gas 6). -/
def sanitize_extraction_json (data : JsonObj) : JsonObj :=
  fixDictGas 6 data

/-! ### Idempotence of the sanitizer -/

theorem mapVals_comp (f g : String → Json → Json) :
    ∀ d : JsonObj, (d.mapVals g).mapVals f = d.mapVals (fun k v => f k (g k v))
  | .nil => rfl
  | .cons k v rest => by simp [JsonObj.mapVals, mapVals_comp f g rest]

theorem mapVals_congr {f g : String → Json → Json}
    (h : ∀ k v, f k v = g k v) : ∀ d : JsonObj, d.mapVals f = d.mapVals g
  | .nil => rfl
  | .cons k v rest => by simp [JsonObj.mapVals, mapVals_congr h rest, h]

theorem toList_ofList (l : List Json) : (JsonList.ofList l).toList = l := by
  induction l with
  | nil => rfl
  | cons j rest ih => simp [JsonList.ofList, JsonList.toList, ih]

/-- Any hit in the doc-type map is one of the five short codes, and those are
fixed points of `docTypeFix`. -/
theorem docTypeFix_of_lookup (s m : String) (h : docTypeLookup s = some m) :
    docTypeFix m = .str m := by
  have hmem : ∃ kv ∈ DOC_TYPE_MAP, kv.2 = m := by
    unfold docTypeLookup at h
    rcases hf : DOC_TYPE_MAP.find? (fun kv => kv.1 = s) with _ | kv
    · rw [hf] at h; simp at h
    · rw [hf] at h
      simp at h
      exact ⟨kv, List.mem_of_find?_eq_some hf, h⟩
  rcases hmem with ⟨kv, hkv, hv⟩
  subst hv
  fin_cases hkv <;> decide

/-- The doc-type fix always yields a string, and that string is a fixed
point of the fix. -/
theorem docTypeFix_idem (s : String) :
    ∃ t, docTypeFix s = .str t ∧ docTypeFix t = .str t := by
  rcases h : docTypeLookup (pyStrip (pyLower s)) with _ | m
  · exact ⟨s, by simp only [docTypeFix, h], by simp only [docTypeFix, h]⟩
  · exact ⟨m, by simp only [docTypeFix, h], docTypeFix_of_lookup _ _ h⟩

theorem plainStringFix_idem (v : Json) :
    plainStringFix (plainStringFix v) = plainStringFix v := by
  cases v with
  | obj o =>
    by_cases h : (getKey o "value").isSome
    · rcases hu : unwrap_value (.obj o) with _ | s <;>
        simp [plainStringFix, h, hu]
    · simp [plainStringFix, h]
  | arr items =>
    rcases hp : items.toList.filterMap plainStringPart with _ | ⟨p, ps⟩ <;>
      simp [plainStringFix, hp]
  | null => rfl
  | bool b => rfl
  | num n => rfl
  | str s => rfl

theorem singleFactFix_idem (v : Json) :
    singleFactFix (singleFactFix v) = singleFactFix v := by
  cases v with
  | arr items =>
    cases items with
    | nil => rfl
    | cons first rest => cases first <;> rfl
  | null => rfl
  | bool b => rfl
  | num n => rfl
  | str s => rfl
  | obj o => rfl

theorem cleanListItem_str (s : String) : cleanListItem (.str s) = some s := rfl

theorem plainListFix_idem (v : Json) :
    plainListFix (plainListFix v) = plainListFix v := by
  cases v with
  | null =>
    show plainListFix (.arr .nil) = .arr .nil
    rfl
  | arr items =>
    show plainListFix (.arr _) = _
    simp only [plainListFix, toList_ofList, List.filterMap_map]
    rw [show cleanListItem ∘ Json.str = some from funext fun s => rfl,
      List.filterMap_some]
  | bool b => rfl
  | num n => rfl
  | str s => rfl
  | obj o => rfl

theorem casFix_idem (v : Json) : casFix (casFix v) = casFix v := by
  cases v with
  | null => rfl
  | arr items =>
    show casFix (casFix (.arr items)) = casFix (.arr items)
    rcases h : items.toList.filterMap casItemValue with _ | ⟨c, cs⟩ <;>
      simp [casFix, h]
  | bool b => rfl
  | num n => rfl
  | str s => rfl
  | obj o => rfl

/-- The per-item mapping of the generic list branch is idempotent whenever the
dict recursion is. -/
theorem mapItems_fixObj_idem (g : JsonObj → JsonObj) (H : ∀ o, g (g o) = g o) :
    ∀ items : JsonList,
      JsonList.mapItems (fun j => match j with | .obj o => .obj (g o) | it => it)
        (JsonList.mapItems (fun j => match j with | .obj o => .obj (g o) | it => it) items)
      = JsonList.mapItems (fun j => match j with | .obj o => .obj (g o) | it => it) items
  | .nil => rfl
  | .cons j rest => by
    cases j <;> simp [JsonList.mapItems, mapItems_fixObj_idem g H rest, H]

/-- Idempotence of the per-key dispatch, given idempotence of the recursive
call it delegates to. -/
theorem fixVal_idem (g : JsonObj → JsonObj) (H : ∀ o, g (g o) = g o)
    (key : String) (val : Json) :
    fixValWith g key (fixValWith g key val) = fixValWith g key val := by
  by_cases h1 : key = "document_type"
  · cases val with
    | str s =>
      rcases docTypeFix_idem s with ⟨t, ht, htt⟩
      simp [fixValWith, h1, ht, htt]
    | obj o => simp [fixValWith, h1, H]
    | arr items => simp [fixValWith, h1, mapItems_fixObj_idem g H]
    | null => simp [fixValWith, h1]
    | bool b => simp [fixValWith, h1]
    | num n => simp [fixValWith, h1]
  · by_cases h2 : key ∈ PLAIN_STRING_FIELDS
    · simp [fixValWith, h1, h2, plainStringFix_idem]
    · by_cases h3 : key ∈ SINGLE_MENDELFACT_FIELDS
      · simp [fixValWith, h1, h2, h3, singleFactFix_idem]
      · by_cases h4 : key ∈ PLAIN_STRING_LIST_FIELDS
        · simp [fixValWith, h1, h2, h3, h4, plainListFix_idem]
        · by_cases h5 : key = "cas_numbers"
          · simp +decide [fixValWith, h1, h5, casFix_idem]
          · cases val with
            | obj o => simp [fixValWith, h1, h2, h3, h4, h5, H]
            | arr items =>
              simp [fixValWith, h1, h2, h3, h4, h5, mapItems_fixObj_idem g H]
            | null => simp [fixValWith, h1, h2, h3, h4, h5]
            | bool b => simp [fixValWith, h1, h2, h3, h4, h5]
            | num n => simp [fixValWith, h1, h2, h3, h4, h5]
            | str s => simp [fixValWith, h1, h2, h3, h4, h5]

theorem fixDictGas_idem : ∀ gas, ∀ d : JsonObj,
    fixDictGas gas (fixDictGas gas d) = fixDictGas gas d := by
  intro gas
  induction gas with
  | zero => intro d; rfl
  | succ g ih =>
    intro d
    show JsonObj.mapVals _ (JsonObj.mapVals _ d) = _
    rw [mapVals_comp]
    exact mapVals_congr (fun k v => fixVal_idem (fixDictGas g) ih k v) d

/-! ## Agent contracts (`agent_schemas.py`)

`PartialExtraction.source_file` is modelled as a list of path components, so
`Path(...).parent` is `List.dropLast` and `Path(...).name` is the last
component.  The `partial_extractions` field of `ProductGroup` is called
`partials` here (the merger source itself immediately rebinds it to
`partials`). -/

structure PartialExtraction where
  source_file : List String
  doc_type : String
  extraction_result : JsonObj
  extracted_fields : List String := []
  missing_fields : List String := []
  warnings : List String := []
deriving DecidableEq

structure ProductGroup where
  product_name : String
  product_folder : List String
  brand : String := ""
  partials : List PartialExtraction := []
deriving DecidableEq

/-- Truth Hierarchy: `DOC_TYPE_PRIORITY.get(doc_type, 0)` (the dict maps
`unknown` to 0 explicitly; unknown keys default to 0 — same function). -/
def DOC_TYPE_PRIORITY (d : String) : Nat :=
  if d = "TDS" then 5
  else if d = "CoA" then 4
  else if d = "SDS" then 3
  else if d = "RPI" then 2
  else if d = "Brochure" then 1
  else 0

/-- Fields that are union-merged (all sources combined, no override). -/
def UNION_MERGE_FIELDS : List String :=
  ["certifications", "global_inventories", "ghs_statements",
   "blocked_countries", "blocked_industries", "chemical_synonyms",
   "material_numbers", "extraction_warnings"]

/-! ## Merger (`agents/merger.py`) -/

/-- Append one item at the end of a JSON array (Python `list.append`). -/
def JsonList.snoc : JsonList → Json → JsonList
  | .nil, j => .cons j .nil
  | .cons x rest, j => .cons x (JsonList.snoc rest j)

/-- The union-merge loop: append each source item whose `str` is not already
present, tracking the set of present strings. -/
def unionAppendAux (existing : List String) (tgt : JsonList) : JsonList → JsonList
  | .nil => tgt
  | .cons item rest =>
    if pyStr item ∈ existing then unionAppendAux existing tgt rest
    else unionAppendAux (pyStr item :: existing) (tgt.snoc item) rest

/-- The conflict warning appended when two facts disagree. -/
def conflictMsg (sec key : String) (tv sv : Json) (srcType : String) : String :=
  "Conflict in " ++ sec ++ "." ++ key ++ ": keeping " ++ sq ++ pyStr tv ++ sq ++
    " (higher priority), discarding " ++ sq ++ pyStr sv ++ sq ++ " from " ++ srcType

/-- The body of `_merge_section`'s per-field loop for one `(key, source_val)`
item of the source section.  In the union branch, a source list meets a target
list (including `[]`) in the first arm; a non-list target can only be filled
when it is `None`. -/
def mergeFieldStep (sec srcType key : String) (srcVal : Json) (tsec : JsonObj)
    (ws : List String) : JsonObj × List String :=
  if srcVal = .null then (tsec, ws)
  else if key ∈ UNION_MERGE_FIELDS then
    match srcVal, (getKey tsec key).getD .null with
    | .arr src, .arr tgt =>
      (setKey tsec key (.arr (unionAppendAux (tgt.toList.map pyStr) tgt src)), ws)
    | .arr src, .null => (setKey tsec key (.arr src), ws)
    | _, _ => (tsec, ws)
  else if key ∈ PLAIN_STRING_FIELDS then
    if !pyTruthy ((getKey tsec key).getD .null) && pyTruthy srcVal then
      (setKey tsec key srcVal, ws)
    else (tsec, ws)
  else if key ∈ PLAIN_STRING_LIST_FIELDS then
    if (!pyTruthy ((getKey tsec key).getD .null)
        || (getKey tsec key).getD .null = .arr .nil) && pyTruthy srcVal then
      (setKey tsec key srcVal, ws)
    else (tsec, ws)
  else if key ∈ SINGLE_MENDELFACT_FIELDS ∨ key = "cas_numbers" then
    if (getKey tsec key).getD .null = .null then (setKey tsec key srcVal, ws)
    else
      match (getKey tsec key).getD .null, srcVal with
      | .obj tobj, .obj sobj =>
        if pyTruthy ((getKey tobj "value").getD .null)
            && pyTruthy ((getKey sobj "value").getD .null)
            && pyStr ((getKey tobj "value").getD .null)
                ≠ pyStr ((getKey sobj "value").getD .null) then
          (tsec,
            ws ++ [conflictMsg sec key ((getKey tobj "value").getD .null)
              ((getKey sobj "value").getD .null) srcType])
        else (tsec, ws)
      | _, _ => (tsec, ws)
  else if (getKey tsec key).getD .null = .null then (setKey tsec key srcVal, ws)
  else (tsec, ws)

/-- Fold `mergeFieldStep` over the items of the source section. -/
def mergeSectionAux (sec srcType : String) :
    JsonObj → JsonObj → List String → JsonObj × List String
  | .nil, tsec, ws => (tsec, ws)
  | .cons k v rest, tsec, ws =>
    let r := mergeFieldStep sec srcType k v tsec ws
    mergeSectionAux sec srcType rest r.1 r.2

/-- `MergerAgent._merge_section` (the unused `source_priority` parameter of
the source is omitted): missing sections default to `{}`; a non-dict on
either side aborts the merge of this section; the (possibly updated) target
section is written back at the end. -/
def mergeSection (target source : JsonObj) (sec srcType : String)
    (ws : List String) : JsonObj × List String :=
  match (getKey target sec).getD (.obj .nil), (getKey source sec).getD (.obj .nil) with
  | .obj tsec, .obj ssec =>
    (setKey target sec (.obj (mergeSectionAux sec srcType ssec tsec ws).1),
     (mergeSectionAux sec srcType ssec tsec ws).2)
  | _, _ => (target, ws)

/-- The seven sections merged by `MergerAgent.merge`, in call order. -/
def sectionNames : List String :=
  ["document_info", "identity", "chemical", "physical", "application",
   "safety", "compliance"]

/-- Merge the listed sections of one source partial into the accumulator. -/
def mergeSections (merged source : JsonObj) (srcType : String)
    (ws : List String) : List String → JsonObj × List String
  | [] => (merged, ws)
  | sec :: rest =>
    mergeSections (mergeSection merged source sec srcType ws).1 source srcType
      (mergeSection merged source sec srcType ws).2 rest

/-- Merge one lower-priority partial into the accumulated Golden Record
(`if not partial.extraction_result: continue` skips empty dicts). -/
def mergePartialStep (acc : JsonObj × List String) (p : PartialExtraction) :
    JsonObj × List String :=
  if p.extraction_result = .nil then acc
  else mergeSections acc.1 p.extraction_result p.doc_type acc.2 sectionNames

/-- Descending-priority order used by `sorted(..., key=priority, reverse=True)`;
insertion sort with this total preorder is stable, like Python's sort. -/
def mergeGE (a b : PartialExtraction) : Prop :=
  DOC_TYPE_PRIORITY b.doc_type ≤ DOC_TYPE_PRIORITY a.doc_type

instance : DecidableRel mergeGE := fun a b =>
  Nat.decLe (DOC_TYPE_PRIORITY b.doc_type) (DOC_TYPE_PRIORITY a.doc_type)

/-- `sorted(partials, key=lambda p: DOC_TYPE_PRIORITY.get(p.doc_type, 0),
reverse=True)` — a stable descending sort. -/
def sortPartials (l : List PartialExtraction) : List PartialExtraction :=
  l.insertionSort mergeGE

/-- Python `sorted(<set of strings>)`: the ascending list of the distinct
elements. -/
def sortDedup (l : List String) : List String :=
  l.dedup.insertionSort (· ≤ ·)

/-- `MergerAgent._compute_missing`: attributes missing from all partials
(set intersection), then `sorted(...)` as in `merge`. -/
def computeMissing : List PartialExtraction → List String
  | [] => []
  | p :: rest =>
    sortDedup
      (rest.foldl (fun acc q => acc.filter (fun f => f ∈ q.missing_fields))
        p.missing_fields)

/-- The multi-partial path of `MergerAgent.merge`: deep-copy the
highest-priority extraction, merge the rest in descending priority, then
rebuild `missing_attributes` and `extraction_warnings`. -/
def mergeMulti (ps : List PartialExtraction) : JsonObj :=
  match sortPartials ps with
  | [] => .nil
  | base :: rest =>
    let r := rest.foldl mergePartialStep (base.extraction_result, [])
    let missing := computeMissing (base :: rest)
    let warns := sortDedup ((((base :: rest).map (·.warnings)).flatten) ++ r.2)
    setKey
      (setKey r.1 "missing_attributes" (.arr (JsonList.ofList (missing.map Json.str))))
      "extraction_warnings" (.arr (JsonList.ofList (warns.map Json.str)))

/-- `MergerAgent.merge`: no partials raise; a single partial short-circuits
(its `ExtractionResult.model_validate` revalidation is the identity on the
already-validated dict and is omitted); otherwise merge by Truth Hierarchy. -/
def merge (g : ProductGroup) : Except String JsonObj :=
  match g.partials with
  | [] => .error ("No partial extractions for " ++ g.product_name)
  | [p] => .ok p.extraction_result
  | ps => .ok (mergeMulti ps)

/-! ### Merger: field-level characterisation

For a non-union field, the merge either keeps an already-populated target
value or fills it from the first populated source, where "populated" means
exactly the fill conditions of `_merge_section`: truthiness for plain-string
and plain-string-list fields, being non-null otherwise. -/

/-- "Populated" in the sense of the merger's fill conditions for non-union
fields. -/
def isPopulated (key : String) (v : Json) : Bool :=
  if key ∈ PLAIN_STRING_FIELDS then pyTruthy v
  else if key ∈ PLAIN_STRING_LIST_FIELDS then pyTruthy v
  else v != Json.null

/-- One fill step: keep a populated target, else take a populated source. -/
def fillVal (key : String) (cur v : Json) : Json :=
  if isPopulated key cur then cur else if isPopulated key v then v else cur

/-- The value of `er[sec][key]` (null when absent or when the section is not
a dict). -/
def secFieldVal (er : JsonObj) (sec key : String) : Json :=
  match getKey er sec with
  | some (.obj o) => (getKey o key).getD .null
  | _ => .null

/-- Well-formedness of one section slot: absent, or a dict with unique keys
(Python dicts always satisfy this). -/
def SecWF : Option Json → Prop
  | none => True
  | some (.obj o) => o.keys.Nodup
  | some _ => False

/-- A partial whose (validated) extraction dict has well-formed sections. -/
def PartialWF (p : PartialExtraction) : Prop :=
  ∀ s ∈ sectionNames, SecWF (getKey p.extraction_result s)

/-- Invariant maintained on the merge target: each section is absent or a
dict. -/
def SecOk : Option Json → Prop
  | none => True
  | some (.obj _) => True
  | some _ => False

theorem SecWF.secOk {j : Option Json} (h : SecWF j) : SecOk j := by
  match j with
  | none => trivial
  | some (.obj _) => trivial
  | some .null | some (.bool _) | some (.num _) | some (.str _) | some (.arr _) =>
    exact h.elim

theorem isPopulated_null (key : String) : isPopulated key .null = false := by
  unfold isPopulated
  split <;> try rfl
  split <;> rfl

theorem fillVal_null (key : String) (cur : Json) : fillVal key cur .null = cur := by
  unfold fillVal
  rw [isPopulated_null]
  split <;> rfl

theorem getKey_setKey_self : ∀ (o : JsonObj) (k : String) (v : Json),
    getKey (setKey o k v) k = some v
  | .nil, k, v => by simp [setKey, getKey]
  | .cons k' v' rest, k, v => by
    by_cases h : k' = k <;> simp [setKey, getKey, h, getKey_setKey_self rest k v]

theorem getKey_setKey_ne : ∀ (o : JsonObj) {k k' : String} (v : Json), k' ≠ k →
    getKey (setKey o k' v) k = getKey o k
  | .nil, k, k', v, h => by simp [setKey, getKey, h]
  | .cons k'' v'' rest, k, k', v, h => by
    by_cases h2 : k'' = k' <;>
      simp [setKey, getKey, h2, getKey_setKey_ne rest v h, h]

theorem getKey_eq_none_of_not_mem_keys : ∀ {o : JsonObj} {k : String},
    k ∉ o.keys → getKey o k = none
  | .nil, _, _ => rfl
  | .cons k' v rest, k, h => by
    simp [JsonObj.keys] at h
    simp [getKey, Ne.symm h.1, getKey_eq_none_of_not_mem_keys h.2]

/-- Folding fill steps computes the first populated candidate (default: the
base value). -/
theorem foldl_fill_eq_find {α : Type} (key : String) (f : α → Json) :
    ∀ (cs : List α) (b : Json),
      cs.foldl (fun cur p => fillVal key cur (f p)) b
        = ((b :: cs.map f).find? (isPopulated key)).getD b := by
  intro cs
  induction cs with
  | nil =>
    intro b
    by_cases hb : isPopulated key b <;> simp [List.find?, hb]
  | cons c cs ih =>
    intro b
    by_cases hb : isPopulated key b
    · have hfill : fillVal key b (f c) = b := by simp [fillVal, hb]
      rw [List.foldl_cons, hfill, ih b]
      simp [List.find?, hb]
    · by_cases hc : isPopulated key (f c)
      · have hfill : fillVal key b (f c) = f c := by simp [fillVal, hb, hc]
        rw [List.foldl_cons, hfill, ih (f c)]
        simp [List.find?, hb, hc]
      · have hfill : fillVal key b (f c) = b := by simp [fillVal, hb, hc]
        rw [List.foldl_cons, hfill, ih b]
        simp [List.find?, hb, hc]

theorem isPopulated_of_PS {key : String} (h : key ∈ PLAIN_STRING_FIELDS)
    (v : Json) : isPopulated key v = pyTruthy v := by
  simp [isPopulated, h]

theorem isPopulated_of_PSL {key : String} (h1 : key ∉ PLAIN_STRING_FIELDS)
    (h2 : key ∈ PLAIN_STRING_LIST_FIELDS) (v : Json) :
    isPopulated key v = pyTruthy v := by
  simp [isPopulated, h1, h2]

theorem isPopulated_other {key : String} (h1 : key ∉ PLAIN_STRING_FIELDS)
    (h2 : key ∉ PLAIN_STRING_LIST_FIELDS) (v : Json) :
    isPopulated key v = (v != Json.null) := by
  simp [isPopulated, h1, h2]

/-- Every branch of the field step leaves the target section unchanged or
assigns the processed key. -/
theorem mergeFieldStep_fst_cases (sec srcType k : String) (v : Json)
    (tsec : JsonObj) (ws : List String) :
    (mergeFieldStep sec srcType k v tsec ws).1 = tsec ∨
      ∃ x, (mergeFieldStep sec srcType k v tsec ws).1 = setKey tsec k x := by
  simp only [mergeFieldStep]
  repeat' split
  all_goals first
    | exact Or.inl rfl
    | exact Or.inr ⟨_, rfl⟩

/-- The field step can only append to the warning list. -/
theorem mergeFieldStep_snd_mono (sec srcType k : String) (v : Json)
    (tsec : JsonObj) (ws : List String) :
    ∃ t, (mergeFieldStep sec srcType k v tsec ws).2 = ws ++ t := by
  simp only [mergeFieldStep]
  repeat' split
  all_goals first
    | exact ⟨[], (List.append_nil ws).symm⟩
    | exact ⟨_, rfl⟩

/-- A step on a different key does not change the value at `key`. -/
theorem mergeFieldStep_fst_ne (sec srcType : String) {k key : String} (v : Json)
    (tsec : JsonObj) (ws : List String) (h : k ≠ key) :
    getKey (mergeFieldStep sec srcType k v tsec ws).1 key = getKey tsec key := by
  rcases mergeFieldStep_fst_cases sec srcType k v tsec ws with h1 | ⟨x, h1⟩ <;> rw [h1]
  · exact getKey_setKey_ne tsec x h

/-- Field-step characterisation at the processed non-union key: a populated
target survives unchanged, otherwise a populated source value fills it. -/
theorem mergeFieldStep_fst_self (sec srcType key : String) (v : Json)
    (tsec : JsonObj) (ws : List String) (hkey : key ∉ UNION_MERGE_FIELDS) :
    getKey (mergeFieldStep sec srcType key v tsec ws).1 key =
      if isPopulated key ((getKey tsec key).getD .null) then getKey tsec key
      else if isPopulated key v then some v
      else getKey tsec key := by
  by_cases hnull : v = Json.null
  · subst hnull
    rw [show mergeFieldStep sec srcType key .null tsec ws = (tsec, ws) from by
      unfold mergeFieldStep; simp]
    rw [isPopulated_null]
    by_cases hcur : isPopulated key ((getKey tsec key).getD .null) <;> simp [hcur]
  · by_cases h2 : key ∈ PLAIN_STRING_FIELDS
    · rw [show mergeFieldStep sec srcType key v tsec ws =
          (if !pyTruthy ((getKey tsec key).getD .null) && pyTruthy v then
            (setKey tsec key v, ws) else (tsec, ws)) from by
        unfold mergeFieldStep; simp [hnull, hkey, h2]]
      rw [isPopulated_of_PS h2, isPopulated_of_PS h2]
      by_cases hcur : pyTruthy ((getKey tsec key).getD .null) <;>
        by_cases hv : pyTruthy v <;>
          simp [hcur, hv, getKey_setKey_self]
    · by_cases h3 : key ∈ PLAIN_STRING_LIST_FIELDS
      · rw [show mergeFieldStep sec srcType key v tsec ws =
            (if (!pyTruthy ((getKey tsec key).getD .null)
                  || (getKey tsec key).getD .null = Json.arr .nil)
                && pyTruthy v then
              (setKey tsec key v, ws) else (tsec, ws)) from by
          unfold mergeFieldStep; simp [hnull, hkey, h2, h3]]
        rw [isPopulated_of_PSL h2 h3, isPopulated_of_PSL h2 h3]
        by_cases hcur : pyTruthy ((getKey tsec key).getD .null)
        · have hne : (getKey tsec key).getD .null ≠ Json.arr .nil := by
            intro h; rw [h] at hcur; simp [pyTruthy] at hcur
          by_cases hv : pyTruthy v <;> simp [hcur, hv, hne]
        · by_cases hv : pyTruthy v <;> simp [hcur, hv, getKey_setKey_self]
      · -- single-MendelFact / cas_numbers / generic branches all fill on null
        rw [isPopulated_other h2 h3, isPopulated_other h2 h3]
        by_cases htv : (getKey tsec key).getD .null = Json.null
        · have step : (mergeFieldStep sec srcType key v tsec ws).1 = setKey tsec key v := by
            unfold mergeFieldStep
            by_cases h4 : key ∈ SINGLE_MENDELFACT_FIELDS ∨ key = "cas_numbers" <;>
              simp [hnull, hkey, h2, h3, h4, htv]
          rw [step, getKey_setKey_self]
          simp [htv, hnull]
        · have step : (mergeFieldStep sec srcType key v tsec ws).1 = tsec := by
            unfold mergeFieldStep
            by_cases h4 : key ∈ SINGLE_MENDELFACT_FIELDS ∨ key = "cas_numbers" <;>
              simp [hnull, hkey, h2, h3, h4, htv] <;>
              (try repeat' split) <;> rfl
          rw [step]
          simp [htv]

/-! ### Merger: section- and partial-level characterisation -/

theorem mergeSectionAux_snd_mono (sec srcType : String) :
    ∀ (ss tsec : JsonObj) (ws : List String),
      ∃ t, (mergeSectionAux sec srcType ss tsec ws).2 = ws ++ t
  | .nil, tsec, ws => ⟨[], (List.append_nil ws).symm⟩
  | .cons k v rest, tsec, ws => by
    obtain ⟨t1, h1⟩ := mergeFieldStep_snd_mono sec srcType k v tsec ws
    obtain ⟨t2, h2⟩ := mergeSectionAux_snd_mono sec srcType rest
      (mergeFieldStep sec srcType k v tsec ws).1
      (mergeFieldStep sec srcType k v tsec ws).2
    refine ⟨t1 ++ t2, ?_⟩
    show (mergeSectionAux sec srcType rest _ _).2 = _
    rw [h2, h1, List.append_assoc]

/-- Value characterisation through one source section (unique source keys):
a populated target keeps its binding, otherwise the source's value for the
key fills it when populated. -/
theorem mergeSectionAux_getKey (sec srcType key : String)
    (hkey : key ∉ UNION_MERGE_FIELDS) :
    ∀ (ss tsec : JsonObj) (ws : List String), ss.keys.Nodup →
      getKey (mergeSectionAux sec srcType ss tsec ws).1 key =
        if isPopulated key ((getKey tsec key).getD .null) then getKey tsec key
        else if isPopulated key ((getKey ss key).getD .null) then
          some ((getKey ss key).getD .null)
        else getKey tsec key
  | .nil, tsec, ws, _ => by
    by_cases hcur : isPopulated key ((getKey tsec key).getD .null) <;>
      simp [mergeSectionAux, getKey, isPopulated_null, hcur]
  | .cons k v rest, tsec, ws, hn => by
    have hn1 : k ∉ rest.keys := by
      have := hn; simp [JsonObj.keys] at this; exact this.1
    have hn2 : rest.keys.Nodup := by
      have := hn; simp [JsonObj.keys] at this; exact this.2
    by_cases hk : k = key
    · subst hk
      have hrest : getKey rest k = none := getKey_eq_none_of_not_mem_keys hn1
      have ih := mergeSectionAux_getKey sec srcType k hkey rest
        (mergeFieldStep sec srcType k v tsec ws).1
        (mergeFieldStep sec srcType k v tsec ws).2 hn2
      show getKey (mergeSectionAux sec srcType rest _ _).1 k = _
      rw [ih, hrest]
      simp only [Option.getD_none, isPopulated_null, Bool.false_eq_true, if_false]
      rw [mergeFieldStep_fst_self sec srcType k v tsec ws hkey]
      by_cases hcur : isPopulated k ((getKey tsec k).getD .null) <;>
        by_cases hv : isPopulated k v <;>
          simp [getKey, hcur, hv, getKey_setKey_self]
    · have ih := mergeSectionAux_getKey sec srcType key hkey rest
        (mergeFieldStep sec srcType k v tsec ws).1
        (mergeFieldStep sec srcType k v tsec ws).2 hn2
      show getKey (mergeSectionAux sec srcType rest _ _).1 key = _
      rw [ih, mergeFieldStep_fst_ne sec srcType v tsec ws hk]
      simp [getKey, hk]

/-- The conflict warning is emitted while folding the source section when the
target and source carry dict facts with truthy, string-different values. -/
theorem mergeSectionAux_warning (sec srcType key : String)
    (hkey : key ∉ UNION_MERGE_FIELDS) (h2 : key ∉ PLAIN_STRING_FIELDS)
    (h3 : key ∉ PLAIN_STRING_LIST_FIELDS)
    (h4 : key ∈ SINGLE_MENDELFACT_FIELDS ∨ key = "cas_numbers")
    (tobj sobj : JsonObj)
    (htv : pyTruthy ((getKey tobj "value").getD .null) = true)
    (hsv : pyTruthy ((getKey sobj "value").getD .null) = true)
    (hne : pyStr ((getKey tobj "value").getD .null)
      ≠ pyStr ((getKey sobj "value").getD .null)) :
    ∀ (ss tsec : JsonObj) (ws : List String), ss.keys.Nodup →
      getKey ss key = some (.obj sobj) →
      getKey tsec key = some (.obj tobj) →
      conflictMsg sec key ((getKey tobj "value").getD .null)
          ((getKey sobj "value").getD .null) srcType
        ∈ (mergeSectionAux sec srcType ss tsec ws).2
  | .nil, tsec, ws, _, hss, _ => by simp [getKey] at hss
  | .cons k v rest, tsec, ws, hn, hss, hts => by
    have hn1 : k ∉ rest.keys := by
      have := hn; simp [JsonObj.keys] at this; exact this.1
    have hn2 : rest.keys.Nodup := by
      have := hn; simp [JsonObj.keys] at this; exact this.2
    by_cases hk : k = key
    · subst hk
      have hv : v = .obj sobj := by
        simp [getKey] at hss; exact hss
      subst hv
      have hstep : mergeFieldStep sec srcType k (.obj sobj) tsec ws =
          (tsec, ws ++ [conflictMsg sec k ((getKey tobj "value").getD .null)
            ((getKey sobj "value").getD .null) srcType]) := by
        unfold mergeFieldStep
        simp [hkey, h2, h3, h4, hts, htv, hsv, hne]
      show _ ∈ (mergeSectionAux sec srcType rest
        (mergeFieldStep sec srcType k (.obj sobj) tsec ws).1
        (mergeFieldStep sec srcType k (.obj sobj) tsec ws).2).2
      rw [hstep]
      obtain ⟨t, ht⟩ := mergeSectionAux_snd_mono sec srcType rest tsec
        (ws ++ [conflictMsg sec k ((getKey tobj "value").getD .null)
          ((getKey sobj "value").getD .null) srcType])
      rw [ht]
      simp
    · have hss' : getKey rest key = some (.obj sobj) := by
        simpa [getKey, hk] using hss
      have hts' : getKey (mergeFieldStep sec srcType k v tsec ws).1 key
          = some (.obj tobj) := by
        rw [mergeFieldStep_fst_ne sec srcType v tsec ws hk]; exact hts
      exact mergeSectionAux_warning sec srcType key hkey h2 h3 h4 tobj sobj
        htv hsv hne rest
        (mergeFieldStep sec srcType k v tsec ws).1
        (mergeFieldStep sec srcType k v tsec ws).2 hn2 hss' hts'

theorem mergeSection_fst_getKey_ne (target source : JsonObj) (sec srcType : String)
    (ws : List String) {sec' : String} (h : sec ≠ sec') :
    getKey (mergeSection target source sec srcType ws).1 sec' = getKey target sec' := by
  unfold mergeSection
  split
  · exact getKey_setKey_ne _ _ h
  · rfl

theorem mergeSection_snd_mono (target source : JsonObj) (sec srcType : String)
    (ws : List String) :
    ∃ t, (mergeSection target source sec srcType ws).2 = ws ++ t := by
  unfold mergeSection
  split
  · exact mergeSectionAux_snd_mono sec srcType _ _ ws
  · exact ⟨[], (List.append_nil ws).symm⟩

theorem mergeSection_SecOk (target source : JsonObj) (sec srcType : String)
    (ws : List String) (sec' : String) (h : SecOk (getKey target sec')) :
    SecOk (getKey (mergeSection target source sec srcType ws).1 sec') := by
  by_cases hs : sec = sec'
  · subst hs
    unfold mergeSection
    split
    · rw [getKey_setKey_self]; trivial
    · exact h
  · rw [mergeSection_fst_getKey_ne target source sec srcType ws hs]; exact h

/-- Merging one source section: the target's value for a non-union key is
kept when populated, else filled from the source when populated. -/
theorem mergeSection_secFieldVal (target source : JsonObj) (sec srcType : String)
    (ws : List String) (key : String) (hkey : key ∉ UNION_MERGE_FIELDS)
    (hT : SecOk (getKey target sec)) (hS : SecWF (getKey source sec)) :
    secFieldVal (mergeSection target source sec srcType ws).1 sec key
      = fillVal key (secFieldVal target sec key) (secFieldVal source sec key) := by
  have hTcases : getKey target sec = none ∨ ∃ o, getKey target sec = some (.obj o) := by
    rcases hj : getKey target sec with _ | j
    · exact Or.inl rfl
    · cases j <;> simp_all [SecOk]
  have hScases : getKey source sec = none ∨
      ∃ o, getKey source sec = some (.obj o) ∧ o.keys.Nodup := by
    rcases hj : getKey source sec with _ | j
    · exact Or.inl rfl
    · cases j <;> simp_all [SecWF]
  have main : ∀ (tsec ssec : JsonObj), ssec.keys.Nodup →
      (getKey target sec).getD (.obj .nil) = .obj tsec →
      (getKey source sec).getD (.obj .nil) = .obj ssec →
      secFieldVal target sec key = (getKey tsec key).getD .null →
      secFieldVal source sec key = (getKey ssec key).getD .null →
      secFieldVal (mergeSection target source sec srcType ws).1 sec key
        = fillVal key (secFieldVal target sec key) (secFieldVal source sec key) := by
    intro tsec ssec hsn ht hs htv hsv
    unfold mergeSection
    rw [ht, hs]
    show secFieldVal (setKey target sec
      (.obj (mergeSectionAux sec srcType ssec tsec ws).1)) sec key = _
    rw [show secFieldVal (setKey target sec
          (.obj (mergeSectionAux sec srcType ssec tsec ws).1)) sec key
        = (getKey (mergeSectionAux sec srcType ssec tsec ws).1 key).getD .null from by
      unfold secFieldVal; rw [getKey_setKey_self]]
    rw [mergeSectionAux_getKey sec srcType key hkey ssec tsec ws hsn]
    rw [htv, hsv]
    unfold fillVal
    by_cases hcur : isPopulated key ((getKey tsec key).getD .null) <;>
      by_cases hv : isPopulated key ((getKey ssec key).getD .null) <;>
        simp [hcur, hv]
  rcases hTcases with hT0 | ⟨tO, hT0⟩ <;> rcases hScases with hS0 | ⟨sO, hS0, hSn⟩
  · exact main .nil .nil (by simp [JsonObj.keys]) (by rw [hT0]; rfl) (by rw [hS0]; rfl)
      (by simp [secFieldVal, hT0, getKey]) (by simp [secFieldVal, hS0, getKey])
  · exact main .nil sO hSn (by rw [hT0]; rfl) (by rw [hS0]; rfl)
      (by simp [secFieldVal, hT0, getKey]) (by simp [secFieldVal, hS0])
  · exact main tO .nil (by simp [JsonObj.keys]) (by rw [hT0]; rfl) (by rw [hS0]; rfl)
      (by simp [secFieldVal, hT0]) (by simp [secFieldVal, hS0, getKey])
  · exact main tO sO hSn (by rw [hT0]; rfl) (by rw [hS0]; rfl)
      (by simp [secFieldVal, hT0]) (by simp [secFieldVal, hS0])

/-- The conflict warning survives `_merge_section` when the keyed facts
conflict. -/
theorem mergeSection_warning (target source : JsonObj) (sec srcType key : String)
    (hkey : key ∉ UNION_MERGE_FIELDS) (h2 : key ∉ PLAIN_STRING_FIELDS)
    (h3 : key ∉ PLAIN_STRING_LIST_FIELDS)
    (h4 : key ∈ SINGLE_MENDELFACT_FIELDS ∨ key = "cas_numbers")
    (tseco sseco tobj sobj : JsonObj)
    (hts : getKey target sec = some (.obj tseco))
    (htk : getKey tseco key = some (.obj tobj))
    (hss : getKey source sec = some (.obj sseco)) (hsn : sseco.keys.Nodup)
    (hsk : getKey sseco key = some (.obj sobj))
    (htv : pyTruthy ((getKey tobj "value").getD .null) = true)
    (hsv : pyTruthy ((getKey sobj "value").getD .null) = true)
    (hne : pyStr ((getKey tobj "value").getD .null)
      ≠ pyStr ((getKey sobj "value").getD .null)) (ws : List String) :
    conflictMsg sec key ((getKey tobj "value").getD .null)
        ((getKey sobj "value").getD .null) srcType
      ∈ (mergeSection target source sec srcType ws).2 := by
  unfold mergeSection
  rw [hts, hss]
  show _ ∈ (mergeSectionAux sec srcType sseco tseco ws).2
  exact mergeSectionAux_warning sec srcType key hkey h2 h3 h4 tobj sobj htv hsv hne
    sseco tseco ws hsn hsk htk

theorem mergeSections_fst_getKey_notmem (source : JsonObj) (srcType : String) :
    ∀ (secs : List String) (merged : JsonObj) (ws : List String) {sec' : String},
      sec' ∉ secs →
      getKey (mergeSections merged source srcType ws secs).1 sec'
        = getKey merged sec'
  | [], merged, ws, _, _ => rfl
  | sec :: rest, merged, ws, sec', h => by
    have h1 : sec ≠ sec' := by simp at h; exact fun hh => h.1 hh.symm
    have h2 : sec' ∉ rest := by simp at h; exact h.2
    show getKey (mergeSections _ source srcType _ rest).1 sec' = _
    rw [mergeSections_fst_getKey_notmem source srcType rest _ _ h2,
      mergeSection_fst_getKey_ne merged source sec srcType ws h1]

theorem mergeSections_snd_mono (source : JsonObj) (srcType : String) :
    ∀ (secs : List String) (merged : JsonObj) (ws : List String),
      ∃ t, (mergeSections merged source srcType ws secs).2 = ws ++ t
  | [], merged, ws => ⟨[], (List.append_nil ws).symm⟩
  | sec :: rest, merged, ws => by
    obtain ⟨t1, h1⟩ := mergeSection_snd_mono merged source sec srcType ws
    obtain ⟨t2, h2⟩ := mergeSections_snd_mono source srcType rest
      (mergeSection merged source sec srcType ws).1
      (mergeSection merged source sec srcType ws).2
    refine ⟨t1 ++ t2, ?_⟩
    show (mergeSections _ source srcType _ rest).2 = _
    rw [h2, h1, List.append_assoc]

theorem mergeSections_SecOk (source : JsonObj) (srcType : String) :
    ∀ (secs : List String) (merged : JsonObj) (ws : List String) (sec' : String),
      SecOk (getKey merged sec') →
      SecOk (getKey (mergeSections merged source srcType ws secs).1 sec')
  | [], merged, ws, sec', h => h
  | sec :: rest, merged, ws, sec', h => by
    show SecOk (getKey (mergeSections _ source srcType _ rest).1 sec')
    exact mergeSections_SecOk source srcType rest _ _ sec'
      (mergeSection_SecOk merged source sec srcType ws sec' h)

/-- Value characterisation through the seven-section pass of one source
partial. -/
theorem mergeSections_secFieldVal (source : JsonObj) (srcType sec key : String)
    (hkey : key ∉ UNION_MERGE_FIELDS) (hS : SecWF (getKey source sec)) :
    ∀ (secs : List String) (merged : JsonObj) (ws : List String),
      sec ∈ secs → secs.Nodup → SecOk (getKey merged sec) →
      secFieldVal (mergeSections merged source srcType ws secs).1 sec key
        = fillVal key (secFieldVal merged sec key) (secFieldVal source sec key)
  | [], merged, ws, hmem, _, _ => by simp at hmem
  | s :: rest, merged, ws, hmem, hnod, hOk => by
    by_cases hs : s = sec
    · subst hs
      have hnot : s ∉ rest := (List.nodup_cons.1 hnod).1
      show secFieldVal (mergeSections _ source srcType _ rest).1 s key = _
      have hpres := mergeSections_fst_getKey_notmem source srcType rest
        (mergeSection merged source s srcType ws).1
        (mergeSection merged source s srcType ws).2 hnot
      unfold secFieldVal
      rw [hpres]
      rw [show (match getKey (mergeSection merged source s srcType ws).1 s with
          | some (.obj o) => (getKey o key).getD Json.null
          | _ => Json.null)
          = secFieldVal (mergeSection merged source s srcType ws).1 s key from rfl]
      exact mergeSection_secFieldVal merged source s srcType ws key hkey hOk hS
    · have hmem' : sec ∈ rest := by
        rcases List.mem_cons.1 hmem with h | h
        · exact absurd h.symm hs
        · exact h
      have hval : secFieldVal (mergeSection merged source s srcType ws).1 sec key
          = secFieldVal merged sec key := by
        unfold secFieldVal
        rw [mergeSection_fst_getKey_ne merged source s srcType ws hs]
      have hOk' : SecOk (getKey (mergeSection merged source s srcType ws).1 sec) := by
        rw [mergeSection_fst_getKey_ne merged source s srcType ws hs]; exact hOk
      show secFieldVal (mergeSections _ source srcType _ rest).1 sec key = _
      rw [mergeSections_secFieldVal source srcType sec key hkey hS rest _ _
        hmem' (List.nodup_cons.1 hnod).2 hOk', hval]

/-- The conflict warning survives the seven-section pass. -/
theorem mergeSections_warning (source : JsonObj) (srcType sec key : String)
    (hkey : key ∉ UNION_MERGE_FIELDS) (h2 : key ∉ PLAIN_STRING_FIELDS)
    (h3 : key ∉ PLAIN_STRING_LIST_FIELDS)
    (h4 : key ∈ SINGLE_MENDELFACT_FIELDS ∨ key = "cas_numbers")
    (tseco sseco tobj sobj : JsonObj)
    (hss : getKey source sec = some (.obj sseco)) (hsn : sseco.keys.Nodup)
    (hsk : getKey sseco key = some (.obj sobj))
    (htv : pyTruthy ((getKey tobj "value").getD .null) = true)
    (hsv : pyTruthy ((getKey sobj "value").getD .null) = true)
    (hne : pyStr ((getKey tobj "value").getD .null)
      ≠ pyStr ((getKey sobj "value").getD .null)) :
    ∀ (secs : List String) (merged : JsonObj) (ws : List String),
      sec ∈ secs →
      getKey merged sec = some (.obj tseco) →
      getKey tseco key = some (.obj tobj) →
      conflictMsg sec key ((getKey tobj "value").getD .null)
          ((getKey sobj "value").getD .null) srcType
        ∈ (mergeSections merged source srcType ws secs).2
  | [], merged, ws, hmem, _, _ => by simp at hmem
  | s :: rest, merged, ws, hmem, hts, htk => by
    by_cases hs : s = sec
    · subst hs
      have hw := mergeSection_warning merged source s srcType key hkey h2 h3 h4
        tseco sseco tobj sobj hts htk hss hsn hsk htv hsv hne ws
      obtain ⟨t, ht⟩ := mergeSections_snd_mono source srcType rest
        (mergeSection merged source s srcType ws).1
        (mergeSection merged source s srcType ws).2
      show _ ∈ (mergeSections _ source srcType _ rest).2
      rw [ht]
      exact List.mem_append_left t hw
    · have hmem' : sec ∈ rest := by
        rcases List.mem_cons.1 hmem with h | h
        · exact absurd h.symm hs
        · exact h
      have hts' : getKey (mergeSection merged source s srcType ws).1 sec
          = some (.obj tseco) := by
        rw [mergeSection_fst_getKey_ne merged source s srcType ws hs]; exact hts
      exact mergeSections_warning source srcType sec key hkey h2 h3 h4
        tseco sseco tobj sobj hss hsn hsk htv hsv hne rest
        (mergeSection merged source s srcType ws).1
        (mergeSection merged source s srcType ws).2 hmem' hts' htk

theorem sectionNames_nodup : sectionNames.Nodup := by decide

/-- One partial's pass: skip if the extraction dict is empty, else the fill
step with the partial's value for the field.  (An empty dict contributes a
null value, so the formula covers the skip as well.) -/
theorem mergePartialStep_secFieldVal (p : PartialExtraction) (hWF : PartialWF p)
    (sec key : String) (hsec : sec ∈ sectionNames) (hkey : key ∉ UNION_MERGE_FIELDS)
    (acc : JsonObj × List String) (hOk : SecOk (getKey acc.1 sec)) :
    secFieldVal (mergePartialStep acc p).1 sec key
      = fillVal key (secFieldVal acc.1 sec key)
        (secFieldVal p.extraction_result sec key) := by
  unfold mergePartialStep
  by_cases hemp : p.extraction_result = .nil
  · rw [if_pos hemp, hemp]
    rw [show secFieldVal JsonObj.nil sec key = Json.null from by
      unfold secFieldVal; simp [getKey]]
    rw [fillVal_null]
  · rw [if_neg hemp]
    exact mergeSections_secFieldVal p.extraction_result p.doc_type sec key hkey
      (hWF sec hsec) sectionNames acc.1 acc.2 hsec sectionNames_nodup hOk

theorem mergePartialStep_SecOk (p : PartialExtraction)
    (acc : JsonObj × List String) (sec : String) (hOk : SecOk (getKey acc.1 sec)) :
    SecOk (getKey (mergePartialStep acc p).1 sec) := by
  unfold mergePartialStep
  by_cases hemp : p.extraction_result = .nil
  · rw [if_pos hemp]; exact hOk
  · rw [if_neg hemp]
    exact mergeSections_SecOk p.extraction_result p.doc_type sectionNames acc.1
      acc.2 sec hOk

theorem mergePartialStep_snd_mono (p : PartialExtraction)
    (acc : JsonObj × List String) :
    ∃ t, (mergePartialStep acc p).2 = acc.2 ++ t := by
  unfold mergePartialStep
  by_cases hemp : p.extraction_result = .nil
  · rw [if_pos hemp]; exact ⟨[], (List.append_nil acc.2).symm⟩
  · rw [if_neg hemp]
    exact mergeSections_snd_mono p.extraction_result p.doc_type sectionNames
      acc.1 acc.2

/-- The merge loop over the lower-priority partials computes, for each
non-union field of each section, the fold of fill steps over the partials'
values. -/
theorem foldl_partials_secFieldVal (sec key : String)
    (hsec : sec ∈ sectionNames) (hkey : key ∉ UNION_MERGE_FIELDS) :
    ∀ (ps : List PartialExtraction) (acc : JsonObj × List String),
      (∀ p ∈ ps, PartialWF p) → SecOk (getKey acc.1 sec) →
      secFieldVal (ps.foldl mergePartialStep acc).1 sec key
        = ps.foldl
            (fun cur p => fillVal key cur (secFieldVal p.extraction_result sec key))
            (secFieldVal acc.1 sec key)
  | [], acc, _, _ => rfl
  | p :: rest, acc, hWF, hOk => by
    rw [List.foldl_cons, List.foldl_cons]
    rw [foldl_partials_secFieldVal sec key hsec hkey rest (mergePartialStep acc p)
      (fun q hq => hWF q (List.mem_cons_of_mem p hq))
      (mergePartialStep_SecOk p acc sec hOk)]
    rw [mergePartialStep_secFieldVal p (hWF p (List.mem_cons_self p rest)) sec key
      hsec hkey acc hOk]

theorem sectionNames_ne_meta : ∀ s ∈ sectionNames,
    s ≠ "missing_attributes" ∧ s ≠ "extraction_warnings" := by decide

theorem merge_eq_multi (g : ProductGroup) (h : 2 ≤ g.partials.length) :
    merge g = .ok (mergeMulti g.partials) := by
  rcases hps : g.partials with _ | ⟨p, _ | ⟨q, rest⟩⟩
  · rw [hps] at h; simp at h
  · rw [hps] at h; simp at h
  · simp only [merge, hps]

/-- The extraction-warnings list of a merged record. -/
def warningsList (m : JsonObj) : List Json :=
  match getKey m "extraction_warnings" with
  | some (.arr l) => l.toList
  | _ => []

/-- Value of a non-union section field after the full multi-partial merge:
the first populated candidate in descending priority order. -/
theorem mergeMulti_secFieldVal (ps : List PartialExtraction) (sec key : String)
    (hsec : sec ∈ sectionNames) (hkey : key ∉ UNION_MERGE_FIELDS)
    (hWF : ∀ p ∈ ps, PartialWF p)
    (base : PartialExtraction) (rest : List PartialExtraction)
    (hsort : sortPartials ps = base :: rest) :
    secFieldVal (mergeMulti ps) sec key
      = (((base :: rest).map
            (fun p => secFieldVal p.extraction_result sec key)).find?
          (isPopulated key)).getD
          (secFieldVal base.extraction_result sec key) := by
  have hmem : ∀ p ∈ base :: rest, p ∈ ps := by
    intro p hp
    have := (List.perm_insertionSort mergeGE ps).mem_iff (a := p)
    rw [show List.insertionSort mergeGE ps = sortPartials ps from rfl, hsort] at this
    exact this.1 hp
  have hne1 := fun s hs => (sectionNames_ne_meta s hs).1
  have hne2 := fun s hs => (sectionNames_ne_meta s hs).2
  unfold mergeMulti
  rw [hsort]
  have hOk : SecOk (getKey base.extraction_result sec) :=
    (hWF base (hmem base (List.mem_cons_self base rest)) sec hsec).secOk
  have hfold := foldl_partials_secFieldVal sec key hsec hkey rest
    (base.extraction_result, [])
    (fun p hp => hWF p (hmem p (List.mem_cons_of_mem base hp))) hOk
  rw [show secFieldVal
      (setKey (setKey (rest.foldl mergePartialStep (base.extraction_result, [])).1
        "missing_attributes"
        (.arr (JsonList.ofList ((computeMissing (base :: rest)).map Json.str))))
        "extraction_warnings"
        (.arr (JsonList.ofList ((sortDedup
          ((((base :: rest).map (·.warnings)).flatten)
            ++ (rest.foldl mergePartialStep (base.extraction_result, [])).2)).map
          Json.str))))
      sec key
      = secFieldVal (rest.foldl mergePartialStep (base.extraction_result, [])).1
          sec key from by
    unfold secFieldVal
    rw [getKey_setKey_ne _ _ (Ne.symm (hne2 sec hsec)),
      getKey_setKey_ne _ _ (Ne.symm (hne1 sec hsec))]]
  rw [hfold]
  show List.foldl _ (secFieldVal base.extraction_result sec key) rest = _
  rw [List.map_cons]
  exact foldl_fill_eq_find key
    (fun p : PartialExtraction => secFieldVal p.extraction_result sec key) rest
    (secFieldVal base.extraction_result sec key)

/-- Any warning produced by the merge loop ends up in the final
`extraction_warnings` of the merged record. -/
theorem mergeMulti_warning_mem (ps : List PartialExtraction)
    (base : PartialExtraction) (rest : List PartialExtraction)
    (hsort : sortPartials ps = base :: rest) (w : String)
    (hw : w ∈ (rest.foldl mergePartialStep (base.extraction_result, [])).2) :
    Json.str w ∈ warningsList (mergeMulti ps) := by
  unfold mergeMulti
  rw [hsort]
  unfold warningsList
  rw [getKey_setKey_self]
  show Json.str w ∈ JsonList.toList (JsonList.ofList _)
  rw [toList_ofList]
  refine List.mem_map_of_mem Json.str ?_
  unfold sortDedup
  rw [(List.perm_insertionSort _ _).mem_iff]
  rw [List.mem_dedup]
  exact List.mem_append_right _ hw

theorem singleFact_class : ∀ k ∈ SINGLE_MENDELFACT_FIELDS,
    k ∉ PLAIN_STRING_FIELDS ∧ k ∉ PLAIN_STRING_LIST_FIELDS ∧
      k ∉ UNION_MERGE_FIELDS := by decide

theorem cas_class : "cas_numbers" ∉ PLAIN_STRING_FIELDS ∧
    "cas_numbers" ∉ PLAIN_STRING_LIST_FIELDS ∧
      "cas_numbers" ∉ UNION_MERGE_FIELDS := by decide

/-- A populated section field pins down the shape of the section dict. -/
theorem secFieldVal_obj_cases {er : JsonObj} {sec key : String} {f : JsonObj}
    (h : secFieldVal er sec key = .obj f) :
    ∃ o, getKey er sec = some (.obj o) ∧ getKey o key = some (.obj f) := by
  unfold secFieldVal at h
  rcases hj : getKey er sec with _ | j
  · rw [hj] at h; simp at h
  · rcases j with _ | b | n | s | l | o
    · rw [hj] at h; simp at h
    · rw [hj] at h; simp at h
    · rw [hj] at h; simp at h
    · rw [hj] at h; simp at h
    · rw [hj] at h; simp at h
    · rw [hj] at h
      have h' : (getKey o key).getD Json.null = Json.obj f := h
      refine ⟨o, rfl, ?_⟩
      rcases hk : getKey o key with _ | v
      · rw [hk] at h'; simp at h'
      · rw [hk] at h'
        simp at h'
        rw [h']

/-! ### Sorting: stability and permutation invariance -/

instance : IsTotal PartialExtraction mergeGE :=
  ⟨fun a b => Nat.le_total (DOC_TYPE_PRIORITY b.doc_type) (DOC_TYPE_PRIORITY a.doc_type)⟩

instance : IsTrans PartialExtraction mergeGE :=
  ⟨fun _ _ _ hab hbc => le_trans hbc hab⟩

/-- Strict descending priority. -/
def mergeGT (a b : PartialExtraction) : Prop :=
  DOC_TYPE_PRIORITY b.doc_type < DOC_TYPE_PRIORITY a.doc_type

instance : IsAntisymm PartialExtraction mergeGT :=
  ⟨fun _ _ h1 h2 => absurd h1 (Nat.lt_asymm h2)⟩

/-- Distinct priorities between two partials. -/
def distinctPrio (a b : PartialExtraction) : Prop :=
  DOC_TYPE_PRIORITY a.doc_type ≠ DOC_TYPE_PRIORITY b.doc_type

/-- With pairwise-distinct priorities, the stable descending sort is
determined by the multiset of partials: any two permutation-equal inputs
sort identically. -/
theorem sortPartials_eq_of_perm {l₁ l₂ : List PartialExtraction}
    (hp : l₁.Perm l₂) (hd : l₁.Pairwise distinctPrio) :
    sortPartials l₁ = sortPartials l₂ := by
  have hperm : (sortPartials l₁).Perm (sortPartials l₂) :=
    (List.perm_insertionSort mergeGE l₁).trans
      (hp.trans (List.perm_insertionSort mergeGE l₂).symm)
  have hd1 : (sortPartials l₁).Pairwise distinctPrio :=
    ((List.perm_insertionSort mergeGE l₁).pairwise_iff
      (fun h => Ne.symm h)).2 hd
  have hd2 : (sortPartials l₂).Pairwise distinctPrio :=
    (hperm.pairwise_iff (fun h => Ne.symm h)).1 hd1
  have hs1 : (sortPartials l₁).Sorted mergeGT :=
    ((List.sorted_insertionSort mergeGE l₁).and hd1).imp
      (fun h => lt_of_le_of_ne h.1 (Ne.symm h.2))
  have hs2 : (sortPartials l₂).Sorted mergeGT :=
    ((List.sorted_insertionSort mergeGE l₂).and hd2).imp
      (fun h => lt_of_le_of_ne h.1 (Ne.symm h.2))
  exact List.eq_of_perm_of_sorted hperm hs1 hs2

/-- The multi-partial merge only depends on the sorted partial list. -/
theorem mergeMulti_congr {ps₁ ps₂ : List PartialExtraction}
    (h : sortPartials ps₁ = sortPartials ps₂) : mergeMulti ps₁ = mergeMulti ps₂ := by
  unfold mergeMulti
  rw [h]

instance : DecidableEq (Except String JsonObj) := fun a b =>
  match a, b with
  | .error e, .error f =>
    decidable_of_iff (e = f) ⟨fun h => by rw [h], fun h => by cases h; rfl⟩
  | .ok x, .ok y =>
    decidable_of_iff (x = y) ⟨fun h => by rw [h], fun h => by cases h; rfl⟩
  | .error _, .ok _ => .isFalse (fun h => by cases h)
  | .ok _, .error _ => .isFalse (fun h => by cases h)

/-! ## Audit trigger (`agents/auditor.py`) -/

/-- `CRITICAL_FIELDS_BY_DOC_TYPE.get(doc_type, set())` (sets listed in the
source's declaration order; only membership and sorting are used). -/
def CRITICAL_FIELDS_BY_DOC_TYPE (d : String) : List String :=
  if d = "SDS" then ["cas_numbers", "ghs_statements", "un_number", "flash_point"]
  else if d = "RPI" then ["cas_numbers", "global_inventories", "certifications"]
  else if d = "TDS" then ["density", "grade", "physical_form"]
  else if d = "CoA" then ["cas_numbers", "purity"]
  else []

/-- The sections scanned by `_count_low_confidence`. -/
def lowConfSections : List String :=
  ["identity", "chemical", "physical", "application", "safety", "compliance"]

/-- Is a field value a dict with `confidence == "low"`? -/
def isLowConfFact : Json → Bool
  | .obj f =>
    match getKey f "confidence" with
    | some (.str s) => s == "low"
    | _ => false
  | _ => false

/-- `_count_low_confidence`: count MendelFact fields with low confidence. -/
def countLowConfidence (er : JsonObj) : Nat :=
  (lowConfSections.map (fun sec =>
    match getKey er sec with
    | some (.obj o) => (o.values.filter isLowConfFact).length
    | _ => 0)).sum

/-- Full match of `^\d{2,7}-\d{2}-\d$`. -/
def casRegex (s : String) : Bool :=
  match s.splitOn "-" with
  | [a, b, c] =>
    decide (2 ≤ a.length) && decide (a.length ≤ 7) && a.toList.all Char.isDigit
      && decide (b.length = 2) && b.toList.all Char.isDigit
      && decide (c.length = 1) && c.toList.all Char.isDigit
  | _ => false

/-- Exactly four ASCII digits. -/
def digits4 (cs : List Char) : Bool := decide (cs.length = 4) && cs.all Char.isDigit

/-- Full match of `^(UN\s?)?\d{4}$` (the value is upper-cased first, so only
the upper-case `UN` prefix can occur). -/
def unRegex (s : String) : Bool :=
  match s.toList with
  | 'U' :: 'N' :: rest =>
    digits4 rest ||
      (match rest with
       | c :: rest2 => isPySpace c && digits4 rest2
       | [] => false)
  | cs => digits4 cs

/-- Prefix match of `^[HPE]\d{3}`. -/
def ghsPrefixOk (s : String) : Bool :=
  match s.toList with
  | c :: a :: b :: d :: _ =>
    (c = 'H' || c = 'P' || c = 'E') && a.isDigit && b.isDigit && d.isDigit
  | _ => false

/-- Is a (stripped, non-empty) CAS comma-part in bad format? -/
def casBadPart (part : String) : Bool :=
  part != "" && !casRegex (pyStrip part)

/-- The access path `extraction_result.get("chemical", ...)["cas_numbers"]
["value"]` guarded by the dict checks of the source. -/
def casValueOf (er : JsonObj) : Option Json :=
  match (getKey er "chemical").getD .null with
  | .obj c =>
    match getKey c "cas_numbers" with
    | some (.obj casObj) => getKey casObj "value"
    | _ => none
  | _ => none

/-- The CAS-format flags: one per failing comma-part (no break). -/
def casFlags (er : JsonObj) : List String :=
  match casValueOf er with
  | some v =>
    if pyTruthy v then
      (((pyStr v).splitOn ",").map pyStrip).filterMap (fun part =>
        if casBadPart part then
          some ("suspicious CAS format: " ++ sq ++ part ++ sq)
        else none)
    else []
  | none => []

/-- The access path `extraction_result.get("safety", ...)["un_number"]
["value"]` guarded by the dict checks of the source. -/
def unValueOf (er : JsonObj) : Option Json :=
  match (getKey er "safety").getD (.obj .nil) with
  | .obj so =>
    match getKey so "un_number" with
    | some (.obj unObj) => getKey unObj "value"
    | _ => none
  | _ => none

/-- The UN-number flag. -/
def unFlags (er : JsonObj) : List String :=
  match unValueOf er with
  | some v =>
    if pyTruthy v then
      if !unRegex (pyUpper (pyStrip (pyStr v))) then
        ["suspicious UN number: " ++ sq ++ pyUpper (pyStrip (pyStr v)) ++ sq]
      else []
    else []
  | none => []

/-- The `ghs_statements` value as read by the check
(`safety.get("ghs_statements", [])`). -/
def ghsListOf (er : JsonObj) : Json :=
  match (getKey er "safety").getD (.obj .nil) with
  | .obj so => (getKey so "ghs_statements").getD (.arr .nil)
  | _ => .arr .nil

/-- Is one GHS statement (stripped, non-empty) in bad format? -/
def ghsBad (stmt : Json) : Bool :=
  pyStrip (pyStr stmt) != "" && !ghsPrefixOk (pyStrip (pyStr stmt))

/-- The GHS flag: the first failing statement among the first five (the
source breaks after one flag). -/
def ghsFlags (er : JsonObj) : List String :=
  match ghsListOf er with
  | .arr l =>
    match (l.toList.take 5).find? ghsBad with
    | some stmt => ["suspicious GHS format: " ++ sq ++ pyStrip (pyStr stmt) ++ sq]
    | none => []
  | _ => []

/-- `_check_hallucination_indicators`: CAS-format flags per comma part (no
break), one UN flag, and the first bad GHS statement among the first five. -/
def checkHallucinationIndicators (er : JsonObj) : List String :=
  casFlags er ++ unFlags er ++ ghsFlags er

/-- `should_audit`: returns `(len(reasons) > 0, reasons)`, short-circuiting
to `(False, [])` when the extraction dict is falsy (empty). -/
def should_audit (p : PartialExtraction) (doc_type : String) : Bool × List String :=
  if p.extraction_result = .nil then (false, [])
  else
    let reasons :=
      (if 3 ≤ countLowConfidence p.extraction_result then
        [toString (countLowConfidence p.extraction_result) ++ " low-confidence fields"]
      else []) ++
      (if ((CRITICAL_FIELDS_BY_DOC_TYPE doc_type).filter
            (fun f => f ∈ p.missing_fields)) ≠ [] then
        ["missing critical fields: "
          ++ joinSep ", " (sortDedup ((CRITICAL_FIELDS_BY_DOC_TYPE doc_type).filter
              (fun f => f ∈ p.missing_fields)))]
      else []) ++
      (if 3 ≤ p.warnings.length then
        [toString p.warnings.length ++ " extraction warnings"]
      else []) ++
      checkHallucinationIndicators p.extraction_result
    (decide (0 < reasons.length), reasons)

/-! ## Versioning and region resolution (`versioning.py`) -/

/-- The fields of `ExtractionResult` read by `resolve_region`
(`document_info.document_type`, `document_info.language`,
`safety.global_inventories`; `language` is a non-null string in the schema,
with pydantic default `"en"`). -/
structure DocumentInfoV where
  document_type : String
  language : String := "en"
deriving DecidableEq

structure SafetyV where
  global_inventories : List String := []
deriving DecidableEq

structure ExtractionResultV where
  document_info : DocumentInfoV
  safety : SafetyV
deriving DecidableEq

/-- `_LANG_TO_REGION.get(lang)`. -/
def LANG_TO_REGION (l : String) : Option String :=
  if l = "en" ∨ l = "de" ∨ l = "fr" ∨ l = "es" ∨ l = "it" ∨ l = "pt"
      ∨ l = "nl" ∨ l = "pl" then some "EU"
  else if l = "ja" then some "JP"
  else if l = "zh" then some "CN"
  else if l = "ko" then some "KR"
  else none

def GLOBAL_DOC_TYPES : List String := ["TDS", "CoA", "Brochure", "RPI"]

/-- `resolve_region`: TDS/CoA/Brochure/RPI are GLOBAL; SDS goes by
language (falsy language falls back to `"en"`), with the TSCA-without-REACH
override to US; anything else is GLOBAL. -/
def resolve_region (result : ExtractionResultV) : String :=
  if result.document_info.document_type ∈ GLOBAL_DOC_TYPES then "GLOBAL"
  else if result.document_info.document_type = "SDS" then
    let lang := String.mk ((pyLower (if result.document_info.language = "" then "en"
      else result.document_info.language)).toList.take 2)
    let region := (LANG_TO_REGION lang).getD "GLOBAL"
    if result.safety.global_inventories ≠ [] then
      if strContains (joinSep " " (result.safety.global_inventories.map pyUpper)) "TSCA"
          && !strContains (joinSep " "
            (result.safety.global_inventories.map pyUpper)) "REACH" then
        "US"
      else region
    else region
  else "GLOBAL"

/-- A `golden_records` row (the columns relevant to versioning). -/
structure GoldenRecordRow where
  id : Nat
  product_name : String
  region : String
  version : Nat
  is_latest : Bool
deriving DecidableEq

/-- `select max(version) where product_name = p and region = r`, with the
source's `(max_version or 0)` giving 0 on an empty key. -/
def maxVersion (db : List GoldenRecordRow) (p r : String) : Nat :=
  ((db.filter (fun row => row.product_name = p ∧ row.region = r)).map
    (·.version)).foldl max 0

/-- `select id where product_name = p and region = r and is_latest`. -/
def obsoletedIds (db : List GoldenRecordRow) (p r : String) : List Nat :=
  (db.filter (fun row =>
    row.product_name = p ∧ row.region = r ∧ row.is_latest = true)).map (·.id)

/-- `update golden_records set is_latest = false where id in ids`. -/
def applyObsolete (db : List GoldenRecordRow) (ids : List Nat) :
    List GoldenRecordRow :=
  db.map (fun row => if row.id ∈ ids then { row with is_latest := false } else row)

/-- `assign_version`: the next version, the obsoleted ids, and the updated
table (the SQL `UPDATE` is modelled as the returned table). -/
def assign_version (db : List GoldenRecordRow) (p r : String) :
    Nat × List Nat × List GoldenRecordRow :=
  (maxVersion db p r + 1, obsoletedIds db p r,
    applyObsolete db (obsoletedIds db p r))

/-- `assign_version` followed by `confirm_extraction`'s
`db.add(GoldenRecord(..., version=version, is_latest=True))`. -/
def confirmInsert (db : List GoldenRecordRow) (p r : String) (newId : Nat) :
    List GoldenRecordRow :=
  applyObsolete db (obsoletedIds db p r)
    ++ [{ id := newId, product_name := p, region := r,
          version := maxVersion db p r + 1, is_latest := true }]

/-! ## Cascade (`batch_extractor.py`, `BatchExtractorService.extract`) -/

/-- The part of the parsed `ExtractionResult` the cascade inspects. -/
structure ExtrResultC where
  missing_attributes : List String
deriving DecidableEq

/-- `ExtractionWithTokens`. -/
structure ExtractionWithTokens where
  result : Option ExtrResultC := none
  error : Option String := none
  provider : String := ""
  model : String := ""
  input_tokens : Nat := 0
  output_tokens : Nat := 0
  cache_creation_tokens : Nat := 0
  cache_read_tokens : Nat := 0
  duration_ms : Nat := 0
deriving DecidableEq

/-- One LLM call's accounting, as recorded by `CostTracker.record`. -/
structure TokenRecord where
  provider : String
  model : String
  input_tokens : Nat
  output_tokens : Nat
  cache_creation_tokens : Nat
  cache_read_tokens : Nat
  file_name : String
  doc_type : String
  duration_ms : Nat
  cascade_triggered : Bool
deriving DecidableEq

/-- The `cost_tracker.record(...)` call made for one extraction outcome. -/
def recordOf (e : ExtractionWithTokens) (file_name doc_type : String)
    (cascade_triggered : Bool) : TokenRecord :=
  { provider := e.provider, model := e.model,
    input_tokens := e.input_tokens, output_tokens := e.output_tokens,
    cache_creation_tokens := e.cache_creation_tokens,
    cache_read_tokens := e.cache_read_tokens,
    file_name := file_name, doc_type := doc_type,
    duration_ms := e.duration_ms, cascade_triggered := cascade_triggered }

/-- Python truthiness of the `error` field (`None` and `""` are falsy). -/
def errTruthy : Option String → Bool
  | none => false
  | some s => s != ""

/-- `primary.error or primary.result is None`. -/
def failedOrNone (e : ExtractionWithTokens) : Bool :=
  errTruthy e.error || e.result.isNone

/-- `len(result.missing_attributes)` (only read behind a `result` check). -/
def missingCount (e : ExtractionWithTokens) : Nat :=
  match e.result with
  | some r => r.missing_attributes.length
  | none => 0

/-- Cascade configuration: `cascade_enabled`, `cascade_threshold`, and
whether `self._fallback_extractor is not None`. -/
structure CascadeConfig where
  cascade_enabled : Bool
  cascade_threshold : Nat
  fallback_available : Bool
deriving DecidableEq

namespace BatchExtractorService

/-- `BatchExtractorService.extract`: the primary outcome and the fallback
call (an exception in the cascade block is `.error`) are inputs; the result
is the returned outcome together with the Cost-Tracker records in order.
The primary call is always recorded with `cascade_triggered=False` and the
fallback call (when made) with `cascade_triggered=True`. -/
def extract (cfg : CascadeConfig) (primary : ExtractionWithTokens)
    (fallbackCall : Except Unit ExtractionWithTokens)
    (file_name doc_type : String) :
    ExtractionWithTokens × List TokenRecord :=
  if failedOrNone primary then
    (primary, [recordOf primary file_name doc_type false])
  else if cfg.cascade_enabled && cfg.fallback_available
      && decide (cfg.cascade_threshold < missingCount primary) then
    match fallbackCall with
    | .error _ => (primary, [recordOf primary file_name doc_type false])
    | .ok fallback =>
      if failedOrNone fallback then
        (primary, [recordOf primary file_name doc_type false,
          recordOf fallback file_name doc_type true])
      else if missingCount fallback < missingCount primary then
        (fallback, [recordOf primary file_name doc_type false,
          recordOf fallback file_name doc_type true])
      else
        (primary, [recordOf primary file_name doc_type false,
          recordOf fallback file_name doc_type true])
  else (primary, [recordOf primary file_name doc_type false])

end BatchExtractorService

/-! ## Extractor pool (`agents/extractors.py`) -/

/-- `_ALL_ATTRIBUTE_NAMES` (a Python set; listed in declaration order). -/
def ALL_ATTRIBUTE_NAMES : List String :=
  ["product_name", "product_line", "wacker_sku", "material_numbers",
   "product_url", "grade",
   "cas_numbers", "chemical_components", "chemical_synonyms", "purity",
   "physical_form", "density", "flash_point", "temperature_range",
   "shelf_life", "cure_system",
   "main_application", "usage_restrictions", "packaging_options",
   "ghs_statements", "un_number", "certifications", "global_inventories",
   "blocked_countries", "blocked_industries",
   "wiaw_status", "sales_advisory",
   "document_type", "language", "manufacturer", "brand", "revision_date",
   "page_count"]

/-- The Pydantic-validated extraction, as far as `extract` consumes it:
`model_dump()`, `missing_attributes`, `extraction_warnings`. -/
structure ValidatedExtraction where
  dump : JsonObj
  missing_attributes : List String
  extraction_warnings : List String

namespace DocTypeExtractor

/-- `DocTypeExtractor.extract`: the LLM call (an exception or the parsed
JSON-mode content) and the Pydantic validation are inputs; the sanitizer is
applied in between.  Any failure yields the failed `PartialExtraction` with
an empty extraction dict, all 33 attributes missing, and an error warning. -/
def extract (doc_type file_name : String)
    (llmContent : Except String JsonObj)
    (validate : JsonObj → Except String ValidatedExtraction) :
    PartialExtraction :=
  match llmContent with
  | .error e =>
    { source_file := [file_name], doc_type := doc_type,
      extraction_result := .nil, extracted_fields := [],
      missing_fields := ALL_ATTRIBUTE_NAMES,
      warnings := ["Extraction error: " ++ e] }
  | .ok raw =>
    match validate (sanitize_extraction_json raw) with
    | .error e =>
      { source_file := [file_name], doc_type := doc_type,
        extraction_result := .nil, extracted_fields := [],
        missing_fields := ALL_ATTRIBUTE_NAMES,
        warnings := ["Extraction error: " ++ e] }
    | .ok extraction =>
      { source_file := [file_name], doc_type := doc_type,
        extraction_result := extraction.dump,
        extracted_fields := ALL_ATTRIBUTE_NAMES.filter
          (fun f => f ∉ extraction.missing_attributes),
        missing_fields := extraction.missing_attributes,
        warnings := extraction.extraction_warnings }

end DocTypeExtractor

/-- The five concrete extractor classes. -/
inductive ExtractorKind where
  | TDS | SDS | RPI | CoA | Brochure
deriving DecidableEq

/-- `EXTRACTOR_REGISTRY`. -/
def EXTRACTOR_REGISTRY : List (String × ExtractorKind) :=
  [("TDS", .TDS), ("SDS", .SDS), ("RPI", .RPI), ("CoA", .CoA),
   ("Brochure", .Brochure)]

/-- `get_extractor`: `EXTRACTOR_REGISTRY.get(doc_type, TDSExtractor)`. -/
def get_extractor (doc_type : String) : ExtractorKind :=
  ((EXTRACTOR_REGISTRY.find? (fun kv => kv.1 = doc_type)).map (·.2)).getD .TDS

/-! ## Orchestrator grouping (`agents/orchestrator.py`) -/

/-- `Path(...).parent` on a path modelled as its components. -/
def pathParent (p : List String) : List String := p.dropLast

/-- `Path(...).name`. -/
def pathName (p : List String) : String := (p.getLast?).getD ""

/-- `j.get(k)` for a value statically known to be used as a dict (the source
would raise `AttributeError` on a non-dict; grouping inputs are validated
dicts, and non-dicts are read as null here). -/
def jGet (j : Json) (k : String) : Json :=
  match j with
  | .obj o => (getKey o k).getD .null
  | _ => .null

/-- The raw JSON value passed into a Pydantic `str` field (equal to the
string itself whenever validation would accept it). -/
def jToStr : Json → String
  | .str s => s
  | j => pyStr j

/-- The name/brand scan of `group_by_product`: the first truthy brand stops
the whole loop; until then every truthy `identity.product_name` overwrites
the running name. -/
def nameBrandLoop : String → List PartialExtraction → String × String
  | pname, [] => (pname, "")
  | pname, p :: rest =>
    if p.extraction_result ≠ .nil then
      if pyTruthy (jGet ((getKey p.extraction_result "document_info").getD
          (.obj .nil)) "brand") then
        (pname, jToStr (jGet ((getKey p.extraction_result "document_info").getD
          (.obj .nil)) "brand"))
      else if pyTruthy (jGet ((getKey p.extraction_result "identity").getD
          (.obj .nil)) "product_name") then
        nameBrandLoop (jToStr (jGet ((getKey p.extraction_result "identity").getD
          (.obj .nil)) "product_name")) rest
      else nameBrandLoop pname rest
    else nameBrandLoop pname rest

/-- Append a partial to its folder's bucket (`defaultdict(list)` semantics:
first appearance fixes the bucket's position). -/
def addToGroups :
    List (List String × List PartialExtraction) → List String →
      PartialExtraction → List (List String × List PartialExtraction)
  | [], folder, p => [(folder, [p])]
  | (f, gps) :: rest, folder, p =>
    if f = folder then (f, gps ++ [p]) :: rest
    else (f, gps) :: addToGroups rest folder p

/-- The grouping loop of `group_by_product`. -/
def buildGroups (ps : List PartialExtraction) :
    List (List String × List PartialExtraction) :=
  ps.foldl (fun acc p => addToGroups acc (pathParent p.source_file) p) []

/-- `OrchestratorAgent.group_by_product`. -/
def group_by_product (ps : List PartialExtraction) : List ProductGroup :=
  (buildGroups ps).map (fun fg =>
    { product_name := (nameBrandLoop (pathName fg.1) fg.2).1,
      product_folder := fg.1,
      brand := (nameBrandLoop (pathName fg.1) fg.2).2,
      partials := fg.2 })

/-! # Claim theorems -/

/-- Claim C5: the Sanitizer is idempotent — for every JSON dictionary `x`,
`sanitize_extraction_json(sanitize_extraction_json(x)) =
sanitize_extraction_json(x)`. -/
theorem sanitizer_idempotent (x : JsonObj) :
    sanitize_extraction_json (sanitize_extraction_json x)
      = sanitize_extraction_json x :=
  fixDictGas_idem 6 x

/-- Claim C9: whenever the LLM call or the sanitize-then-validate step
fails, `DocTypeExtractor.extract` returns (rather than raises) the failed
`PartialExtraction`: empty extraction dict, all 33 attribute names in
`missing_fields` (the list has 33 distinct names), no extracted fields, and
a warning describing the error. -/
theorem extractor_failure_contract (doc_type file_name e : String)
    (llmContent : Except String JsonObj)
    (validate : JsonObj → Except String ValidatedExtraction)
    (h : llmContent = .error e ∨
      ∃ raw, llmContent = .ok raw ∧
        validate (sanitize_extraction_json raw) = .error e) :
    DocTypeExtractor.extract doc_type file_name llmContent validate =
      { source_file := [file_name], doc_type := doc_type,
        extraction_result := .nil, extracted_fields := [],
        missing_fields := ALL_ATTRIBUTE_NAMES,
        warnings := ["Extraction error: " ++ e] }
    ∧ ALL_ATTRIBUTE_NAMES.length = 33 ∧ ALL_ATTRIBUTE_NAMES.Nodup := by
  refine ⟨?_, by decide, by decide⟩
  rcases h with h | ⟨raw, hraw, hval⟩
  · rw [h]; rfl
  · rw [hraw]
    simp only [DocTypeExtractor.extract, hval]

theorem extractor_failure_contract_witness :
    DocTypeExtractor.extract "TDS" "a.pdf" (.error "provider timeout")
        (fun _ => .ok ⟨.nil, [], []⟩) =
      { source_file := ["a.pdf"], doc_type := "TDS",
        extraction_result := .nil, extracted_fields := [],
        missing_fields := ALL_ATTRIBUTE_NAMES,
        warnings := ["Extraction error: " ++ "provider timeout"] }
    ∧ ALL_ATTRIBUTE_NAMES.length = 33 ∧ ALL_ATTRIBUTE_NAMES.Nodup :=
  extractor_failure_contract "TDS" "a.pdf" "provider timeout"
    (.error "provider timeout") (fun _ => .ok ⟨.nil, [], []⟩) (Or.inl rfl)

/-- Claim C10: for every doc_type outside the registry (TDS, SDS, RPI, CoA,
Brochure) — in particular the classifier's `unknown` fallback —
`get_extractor` returns the TDS extractor, so every classified document
still gets an extractor. -/
theorem get_extractor_default (d : String)
    (h : d ∉ ["TDS", "SDS", "RPI", "CoA", "Brochure"]) :
    get_extractor d = .TDS := by
  unfold get_extractor
  have : EXTRACTOR_REGISTRY.find? (fun kv => kv.1 = d) = none := by
    rw [List.find?_eq_none]
    intro kv hkv
    simp at h
    fin_cases hkv <;> simp <;>
      first
        | exact fun hc => h.1 hc.symm
        | exact fun hc => h.2.1 hc.symm
        | exact fun hc => h.2.2.1 hc.symm
        | exact fun hc => h.2.2.2.1 hc.symm
        | exact fun hc => h.2.2.2.2 hc.symm
  rw [this]
  rfl

theorem get_extractor_default_witness : get_extractor "unknown" = .TDS :=
  get_extractor_default "unknown" (by decide)

/-! ### Claim C3 (cascade) -/

/-- A cascade scenario in which the fallback wins: primary (google) reports
15 missing attributes, fallback (anthropic) 6, threshold 10. -/
def c3cfg : CascadeConfig := ⟨true, 10, true⟩

def c3primary : ExtractionWithTokens :=
  { result := some ⟨List.replicate 15 "m"⟩, provider := "google",
    model := "gemini" }

def c3fallback : ExtractionWithTokens :=
  { result := some ⟨List.replicate 6 "m"⟩, provider := "anthropic",
    model := "sonnet" }

/-- Claim C3 counterexample: the fallback wins (its result is returned), yet
the record of the winning (anthropic) call carries `cascade_triggered=true`
and the losing (google) call's record carries `false` — the opposite of the
claimed winner/loser tagging.  The tags mark which call was the cascade
fallback, independent of who won. -/
theorem cascade_winner_tag_counterexample :
    BatchExtractorService.extract c3cfg c3primary (.ok c3fallback) "a.pdf" "TDS"
      = (c3fallback,
         [recordOf c3primary "a.pdf" "TDS" false,
          recordOf c3fallback "a.pdf" "TDS" true])
    ∧ (recordOf c3fallback "a.pdf" "TDS" true).provider = c3fallback.provider
    ∧ (recordOf c3fallback "a.pdf" "TDS" true).cascade_triggered = true
    ∧ (recordOf c3primary "a.pdf" "TDS" false).provider ≠ c3fallback.provider := by
  refine ⟨?_, rfl, rfl, by decide⟩
  rfl

/-- Claim C3 (amended): when the cascade is enabled, a fallback extractor is
available, the primary succeeds with more missing attributes than the
threshold, and the fallback call itself does not raise, then the fallback
runs and both calls are recorded — the primary's record always tagged
`cascade_triggered=false` and the fallback's always `true` (the tag marks
the fallback call, not the winner) — and the returned result is the
fallback exactly when it is valid and strictly reduces the missing count;
ties and fallback failures return the primary. -/
theorem cascade_behavior (cfg : CascadeConfig)
    (primary fallback : ExtractionWithTokens) (file_name doc_type : String)
    (hE : cfg.cascade_enabled = true) (hA : cfg.fallback_available = true)
    (hP : failedOrNone primary = false)
    (hm : cfg.cascade_threshold < missingCount primary) :
    BatchExtractorService.extract cfg primary (.ok fallback) file_name doc_type
      = ((if failedOrNone fallback then primary
          else if missingCount fallback < missingCount primary then fallback
          else primary),
         [recordOf primary file_name doc_type false,
          recordOf fallback file_name doc_type true]) := by
  unfold BatchExtractorService.extract
  rw [hP, hE, hA]
  simp only [Bool.false_eq_true, if_false, Bool.true_and, decide_eq_true_eq]
  rw [if_pos hm]
  by_cases h1 : failedOrNone fallback
  · simp [h1]
  · by_cases h2 : missingCount fallback < missingCount primary <;> simp [h1, h2]

theorem cascade_behavior_witness :
    BatchExtractorService.extract c3cfg c3primary (.ok c3fallback) "b.pdf" "SDS"
      = ((if failedOrNone c3fallback then c3primary
          else if missingCount c3fallback < missingCount c3primary then c3fallback
          else c3primary),
         [recordOf c3primary "b.pdf" "SDS" false,
          recordOf c3fallback "b.pdf" "SDS" true]) :=
  cascade_behavior c3cfg c3primary c3fallback "b.pdf" "SDS" rfl rfl (by decide)
    (by decide)

/-! ### Claim C2 (versioning) -/

theorem foldl_max_ge : ∀ (l : List Nat) (a : Nat),
    a ≤ l.foldl max a ∧ ∀ x ∈ l, x ≤ l.foldl max a
  | [], a => ⟨le_refl a, by simp⟩
  | x :: l, a => by
    obtain ⟨h1, h2⟩ := foldl_max_ge l (max a x)
    refine ⟨le_trans (le_max_left a x) h1, ?_⟩
    intro y hy
    rcases List.mem_cons.1 hy with rfl | hy
    · exact le_trans (le_max_right a y) h1
    · exact h2 y hy

/-- Claim C2: after `assign_version` and the caller's insert of the new row
with `is_latest=true`, exactly one row of the (product_name, region) key is
latest — the new row — and its version is the previous maximum plus one
(hence 1 when the key had no rows), strictly above every pre-existing
version of the key. -/
theorem versioning_latest_unique (db : List GoldenRecordRow)
    (p r : String) (newId : Nat) :
    ((confirmInsert db p r newId).filter (fun row =>
        row.product_name = p ∧ row.region = r ∧ row.is_latest = true))
      = [{ id := newId, product_name := p, region := r,
           version := maxVersion db p r + 1, is_latest := true }]
    ∧ (∀ row ∈ db, row.product_name = p → row.region = r →
        row.version < maxVersion db p r + 1)
    ∧ ((db.filter (fun row => row.product_name = p ∧ row.region = r)) = [] →
        maxVersion db p r + 1 = 1) := by
  refine ⟨?_, ?_, ?_⟩
  · unfold confirmInsert
    rw [List.filter_append]
    have hnew : (List.filter (fun row : GoldenRecordRow =>
        decide (row.product_name = p ∧ row.region = r ∧ row.is_latest = true))
        [{ id := newId, product_name := p, region := r,
           version := maxVersion db p r + 1, is_latest := true }])
        = [{ id := newId, product_name := p, region := r,
             version := maxVersion db p r + 1, is_latest := true }] := by
      simp
    rw [hnew]
    have hold : (List.filter (fun row : GoldenRecordRow =>
        decide (row.product_name = p ∧ row.region = r ∧ row.is_latest = true))
        (applyObsolete db (obsoletedIds db p r))) = [] := by
      rw [List.filter_eq_nil_iff]
      intro row' hrow'
      unfold applyObsolete at hrow'
      rcases List.mem_map.1 hrow' with ⟨row, hrow, heq⟩
      by_cases hid : row.id ∈ obsoletedIds db p r
      · rw [if_pos hid] at heq
        rw [← heq]
        simp
      · rw [if_neg hid] at heq
        rw [← heq]
        simp only [decide_eq_true_eq, not_and]
        intro hp hr hl
        exact hid (List.mem_map.2 ⟨row, List.mem_filter.2
          ⟨hrow, by simp [hp, hr, hl]⟩, rfl⟩)
    rw [hold, List.nil_append]
  · intro row hrow hp hr
    have hmem : row.version ∈ ((db.filter (fun row =>
        row.product_name = p ∧ row.region = r)).map (·.version)) :=
      List.mem_map.2 ⟨row, List.mem_filter.2 ⟨hrow, by simp [hp, hr]⟩, rfl⟩
    have := (foldl_max_ge ((db.filter (fun row =>
        row.product_name = p ∧ row.region = r)).map (·.version)) 0).2
      row.version hmem
    exact Nat.lt_succ_of_le this
  · intro hempty
    unfold maxVersion
    rw [hempty]
    rfl

/-- A three-row table for the key ("P", "EU") with current latest version 2
and an unrelated key: applying the claim gives the single new latest row at
version 3. -/
def c2db : List GoldenRecordRow :=
  [{ id := 1, product_name := "P", region := "EU", version := 1,
     is_latest := false },
   { id := 2, product_name := "P", region := "EU", version := 2,
     is_latest := true },
   { id := 3, product_name := "Q", region := "US", version := 1,
     is_latest := true }]

theorem versioning_latest_unique_witness :
    ((confirmInsert c2db "P" "EU" 7).filter (fun row =>
        row.product_name = "P" ∧ row.region = "EU" ∧ row.is_latest = true))
      = [{ id := 7, product_name := "P", region := "EU",
           version := maxVersion c2db "P" "EU" + 1, is_latest := true }]
    ∧ ({ id := 2, product_name := "P", region := "EU", version := 2,
         is_latest := true } : GoldenRecordRow).version
        < maxVersion c2db "P" "EU" + 1 :=
  ⟨(versioning_latest_unique c2db "P" "EU" 7).1,
   (versioning_latest_unique c2db "P" "EU" 7).2.1
     { id := 2, product_name := "P", region := "EU", version := 2,
       is_latest := true } (by decide) rfl rfl⟩

/-! ### Claim C6 (region resolution) -/

/-- Does the inventories list mention TSCA but not REACH (case-insensitive,
checked on the space-joined upper-cased text as in the source)? -/
def mentionsTSCAnotREACH (invs : List String) : Bool :=
  strContains (joinSep " " (invs.map pyUpper)) "TSCA"
    && !strContains (joinSep " " (invs.map pyUpper)) "REACH"

/-- `resolve_region` as claim C6 words it: the SDS branch maps the first two
lowercased characters of `language` through the table, defaulting to GLOBAL,
with the TSCA-without-REACH override to US; no special case for an empty
language. -/
def claimRegionC6 (r : ExtractionResultV) : String :=
  if r.document_info.document_type ∈ ["TDS", "CoA", "Brochure", "RPI"] then
    "GLOBAL"
  else if r.document_info.document_type = "SDS" then
    if mentionsTSCAnotREACH r.safety.global_inventories then "US"
    else (LANG_TO_REGION (String.mk
      ((pyLower r.document_info.language).toList.take 2))).getD "GLOBAL"
  else "GLOBAL"

/-- Claim C6 as amended: identical, except that a falsy (empty) `language`
first falls back to `"en"` (hence EU), as the source's `or "en"` does. -/
def amendedRegionC6 (r : ExtractionResultV) : String :=
  if r.document_info.document_type ∈ ["TDS", "CoA", "Brochure", "RPI"] then
    "GLOBAL"
  else if r.document_info.document_type = "SDS" then
    if mentionsTSCAnotREACH r.safety.global_inventories then "US"
    else (LANG_TO_REGION (String.mk ((pyLower
      (if r.document_info.language = "" then "en"
       else r.document_info.language)).toList.take 2))).getD "GLOBAL"
  else "GLOBAL"

/-- Claim C6 counterexample: an SDS with empty language and no inventories
resolves to EU (via the `or "en"` fallback), while the claim's mapping of
the first two lowercased characters of `language` defaults to GLOBAL. -/
theorem region_language_counterexample :
    resolve_region ⟨⟨"SDS", ""⟩, ⟨[]⟩⟩ = "EU"
      ∧ claimRegionC6 ⟨⟨"SDS", ""⟩, ⟨[]⟩⟩ = "GLOBAL"
      ∧ "EU" ≠ "GLOBAL" := by
  refine ⟨by decide, by decide, by decide⟩

/-- Claim C6 (amended): `resolve_region` returns GLOBAL for TDS, CoA,
Brochure and RPI regardless of language or inventories; for SDS it maps the
first two lowercased characters of the language (an empty language first
falling back to `"en"`) through {en,de,fr,es,it,pt,nl,pl→EU; ja→JP; zh→CN;
ko→KR}, defaulting to GLOBAL, and forces US whenever the inventories mention
TSCA but not REACH; any other document type yields GLOBAL. -/
theorem resolve_region_spec (r : ExtractionResultV) :
    resolve_region r = amendedRegionC6 r := by
  unfold resolve_region amendedRegionC6 GLOBAL_DOC_TYPES mentionsTSCAnotREACH
  by_cases h1 : r.document_info.document_type ∈ ["TDS", "CoA", "Brochure", "RPI"]
  · simp [h1]
  · by_cases h2 : r.document_info.document_type = "SDS"
    · by_cases h3 : r.safety.global_inventories = []
      · simp +decide [h1, h2, h3, joinSep, strContains, listContainsSub,
          listStartsWith]
      · simp [h1, h2, h3]
    · simp [h1, h2]

/-! ### Claim C4 (audit trigger) -/

/-- Claim-side condition: some comma-separated part of the populated CAS
value (stripped, non-empty) fails the CAS pattern. -/
def casSuspicious (er : JsonObj) : Prop :=
  ∃ v, casValueOf er = some v ∧ pyTruthy v = true ∧
    ∃ part ∈ ((pyStr v).splitOn ",").map pyStrip, casBadPart part = true

/-- Claim-side condition: the populated UN value (stripped, upper-cased)
fails the UN pattern. -/
def unSuspicious (er : JsonObj) : Prop :=
  ∃ v, unValueOf er = some v ∧ pyTruthy v = true ∧
    unRegex (pyUpper (pyStrip (pyStr v))) = false

/-- Claim-side condition: some GHS statement fails the GHS pattern. -/
def ghsSuspiciousAll (er : JsonObj) : Prop :=
  ∃ l, ghsListOf er = .arr l ∧ ∃ stmt ∈ l.toList, ghsBad stmt = true

/-- Amended GHS condition: some statement among the first five fails. -/
def ghsSuspiciousTake5 (er : JsonObj) : Prop :=
  ∃ l, ghsListOf er = .arr l ∧ ∃ stmt ∈ l.toList.take 5, ghsBad stmt = true

/-- The four §4.5 trigger conditions exactly as claim C4 states them: no
gating on a non-empty extraction dict, and the GHS heuristic ranges over all
statements. -/
def ClaimAuditTrigger (p : PartialExtraction) (doc_type : String) : Prop :=
  3 ≤ countLowConfidence p.extraction_result
  ∨ (∃ f ∈ CRITICAL_FIELDS_BY_DOC_TYPE doc_type, f ∈ p.missing_fields)
  ∨ 3 ≤ p.warnings.length
  ∨ casSuspicious p.extraction_result
  ∨ unSuspicious p.extraction_result
  ∨ ghsSuspiciousAll p.extraction_result

/-- Claim C4 as amended: the trigger additionally requires a non-empty
extraction dict, and the GHS heuristic only sees the first five
statements. -/
def AmendedAuditTrigger (p : PartialExtraction) (doc_type : String) : Prop :=
  p.extraction_result ≠ .nil ∧
    (3 ≤ countLowConfidence p.extraction_result
     ∨ (∃ f ∈ CRITICAL_FIELDS_BY_DOC_TYPE doc_type, f ∈ p.missing_fields)
     ∨ 3 ≤ p.warnings.length
     ∨ casSuspicious p.extraction_result
     ∨ unSuspicious p.extraction_result
     ∨ ghsSuspiciousTake5 p.extraction_result)

theorem casFlags_iff (er : JsonObj) : casFlags er ≠ [] ↔ casSuspicious er := by
  unfold casFlags casSuspicious
  rcases hv : casValueOf er with _ | v
  · simp
  · by_cases ht : pyTruthy v
    · simp only [ht, if_true, Ne, List.filterMap_eq_nil_iff, not_forall,
        Option.some.injEq]
      constructor
      · rintro ⟨part, hpart, hne⟩
        refine ⟨v, rfl, ht, part, hpart, ?_⟩
        by_contra hbad
        simp [Bool.not_eq_true] at hbad
        simp [hbad] at hne
      · rintro ⟨v', hv', _, part, hpart, hbad⟩
        cases hv'
        exact ⟨part, hpart, by simp [hbad]⟩
    · simp [ht]

theorem unFlags_iff (er : JsonObj) : unFlags er ≠ [] ↔ unSuspicious er := by
  unfold unFlags unSuspicious
  rcases hv : unValueOf er with _ | v
  · simp
  · by_cases ht : pyTruthy v
    · by_cases hr : unRegex (pyUpper (pyStrip (pyStr v))) <;>
        simp [ht, hr]
    · simp [ht]

theorem ghsFlags_iff (er : JsonObj) : ghsFlags er ≠ [] ↔ ghsSuspiciousTake5 er := by
  unfold ghsFlags ghsSuspiciousTake5
  rcases hg : ghsListOf er with _ | b | n | s | l | o <;> try · simp
  rcases hf : (l.toList.take 5).find? ghsBad with _ | stmt
  · constructor
    · intro h
      refine absurd ?_ h
      show (match (l.toList.take 5).find? ghsBad with
        | some stmt => ["suspicious GHS format: " ++ sq ++ pyStrip (pyStr stmt) ++ sq]
        | none => []) = []
      rw [hf]
    · rintro ⟨l2, hl2, stmt, hstmt, hbad⟩
      cases hl2
      rw [List.find?_eq_none] at hf
      exact absurd hbad (by simp [hf stmt hstmt])
  · constructor
    · intro _
      exact ⟨l, rfl, stmt, List.mem_of_find?_eq_some hf, List.find?_some hf⟩
    · intro _
      show (match (l.toList.take 5).find? ghsBad with
        | some stmt => ["suspicious GHS format: " ++ sq ++ pyStrip (pyStr stmt) ++ sq]
        | none => []) ≠ []
      rw [hf]
      simp

theorem checkHallucination_iff (er : JsonObj) :
    checkHallucinationIndicators er ≠ [] ↔
      (casSuspicious er ∨ unSuspicious er ∨ ghsSuspiciousTake5 er) := by
  unfold checkHallucinationIndicators
  rw [← casFlags_iff, ← unFlags_iff, ← ghsFlags_iff]
  simp [List.append_eq_nil]
  tauto


theorem critFilter_ne_nil (p : PartialExtraction) (d : String) :
    ((CRITICAL_FIELDS_BY_DOC_TYPE d).filter
        (fun f => f ∈ p.missing_fields)) ≠ [] ↔
      ∃ f ∈ CRITICAL_FIELDS_BY_DOC_TYPE d, f ∈ p.missing_fields := by
  rw [Ne, List.filter_eq_nil_iff]
  push_neg
  simp

/-- Claim C4, corrected: for every partial extraction and doc type, the
audit flag of `should_audit` is set iff the extraction dict is non-empty
and one of the four trigger conditions holds, where the GHS hallucination
heuristic only inspects the first five statements. -/
theorem audit_trigger_iff (p : PartialExtraction) (d : String) :
    (should_audit p d).1 = true ↔ AmendedAuditTrigger p d := by
  unfold should_audit AmendedAuditTrigger
  by_cases hemp : p.extraction_result = .nil
  · simp [hemp]
  · rw [if_neg hemp]
    simp only [checkHallucinationIndicators, decide_eq_true_iff, ne_eq,
      hemp, not_false_eq_true, true_and]
    rw [List.length_pos]
    by_cases h1 : 3 ≤ countLowConfidence p.extraction_result <;>
    by_cases h2 : ((CRITICAL_FIELDS_BY_DOC_TYPE d).filter
        (fun f => f ∈ p.missing_fields)) = [] <;>
    by_cases h3 : 3 ≤ p.warnings.length <;>
    by_cases h4 : casFlags p.extraction_result = [] <;>
    by_cases h5 : unFlags p.extraction_result = [] <;>
    by_cases h6 : ghsFlags p.extraction_result = [] <;>
    simp [h1, h2, h3, h4, h5, h6, ← casFlags_iff, ← unFlags_iff,
      ← ghsFlags_iff, ← critFilter_ne_nil]

/-- Witness for claim C4: a concrete SDS partial with a missing critical
field makes the audit fire, and the amended trigger holds for it. -/
theorem audit_trigger_iff_witness :
    (should_audit ⟨["a", "f.pdf"], "SDS",
        .cons "identity" (.obj .nil) .nil, [], ["cas_numbers"], []⟩
      "SDS").1 = true ∧
    AmendedAuditTrigger ⟨["a", "f.pdf"], "SDS",
        .cons "identity" (.obj .nil) .nil, [], ["cas_numbers"], []⟩ "SDS" := by
  have h := (audit_trigger_iff ⟨["a", "f.pdf"], "SDS",
      .cons "identity" (.obj .nil) .nil, [], ["cas_numbers"], []⟩ "SDS").2
  refine ⟨h ?_, ?_⟩ <;>
    exact ⟨by decide, Or.inr (Or.inl ⟨"cas_numbers", by decide, by decide⟩)⟩

/-- Counterexample for claim C4 as stated: a partial whose extraction dict
is empty but which carries three warnings satisfies the claimed trigger
condition (warnings length at least 3), yet `should_audit` returns false
because of the empty-dict gate. -/
theorem audit_trigger_counterexample :
    (should_audit ⟨["a", "f.pdf"], "SDS", .nil, [], [],
        ["w1", "w2", "w3"]⟩ "SDS").1 = false ∧
    ClaimAuditTrigger ⟨["a", "f.pdf"], "SDS", .nil, [], [],
        ["w1", "w2", "w3"]⟩ "SDS" := by
  refine ⟨by decide, Or.inr (Or.inr (Or.inl (by decide)))⟩

/-! ## Claim C1: highest-priority-wins for non-union fields -/

instance instDecidableSecWF : (j : Option Json) → Decidable (SecWF j)
  | none => .isTrue trivial
  | some (.obj o) => inferInstanceAs (Decidable o.keys.Nodup)
  | some .null => .isFalse fun h => h
  | some (.bool _) => .isFalse fun h => h
  | some (.num _) => .isFalse fun h => h
  | some (.str _) => .isFalse fun h => h
  | some (.arr _) => .isFalse fun h => h

instance (p : PartialExtraction) : Decidable (PartialWF p) :=
  inferInstanceAs
    (Decidable (∀ s ∈ sectionNames, SecWF (getKey p.extraction_result s)))

/-- Claim C1: for a group of at least two well-formed partials, the merge
succeeds and every non-union section field of the merged record equals the
value of the first partial, in descending priority order, that populated it
(falling back to the base value); and when the base and a single
lower-priority partial both carry a Fact-valued single-Fact field (or
cas_numbers) with truthy, string-distinct values, the base Fact is kept
unchanged and the conflict warning with both values and the lower partial
doc type is in the merged extraction warnings. -/
theorem merge_highest_priority_wins (g : ProductGroup) (sec key : String)
    (hsec : sec ∈ sectionNames) (hkey : key ∉ UNION_MERGE_FIELDS)
    (hWF : ∀ p ∈ g.partials, PartialWF p)
    (base : PartialExtraction) (rest : List PartialExtraction)
    (hsort : sortPartials g.partials = base :: rest)
    (hlen : 2 ≤ g.partials.length) :
    (merge g = .ok (mergeMulti g.partials)
     ∧ secFieldVal (mergeMulti g.partials) sec key
        = (((base :: rest).map
              (fun p => secFieldVal p.extraction_result sec key)).find?
            (isPopulated key)).getD
            (secFieldVal base.extraction_result sec key))
    ∧ (∀ (lo : PartialExtraction) (tobj sobj : JsonObj),
        rest = [lo] →
        (key ∈ SINGLE_MENDELFACT_FIELDS ∨ key = "cas_numbers") →
        secFieldVal base.extraction_result sec key = .obj tobj →
        secFieldVal lo.extraction_result sec key = .obj sobj →
        pyTruthy ((getKey tobj "value").getD .null) = true →
        pyTruthy ((getKey sobj "value").getD .null) = true →
        pyStr ((getKey tobj "value").getD .null)
          ≠ pyStr ((getKey sobj "value").getD .null) →
        secFieldVal (mergeMulti g.partials) sec key = .obj tobj
        ∧ Json.str (conflictMsg sec key ((getKey tobj "value").getD .null)
            ((getKey sobj "value").getD .null) lo.doc_type)
          ∈ warningsList (mergeMulti g.partials)) := by
  have hmem : ∀ p ∈ base :: rest, p ∈ g.partials := by
    intro p hp
    have hperm := (List.perm_insertionSort mergeGE g.partials).mem_iff (a := p)
    rw [show List.insertionSort mergeGE g.partials = sortPartials g.partials
      from rfl, hsort] at hperm
    exact hperm.1 hp
  have hval := mergeMulti_secFieldVal g.partials sec key hsec hkey hWF base rest
    hsort
  refine ⟨⟨merge_eq_multi g hlen, hval⟩, ?_⟩
  rintro lo tobj sobj rfl h4 htov hlov htv hsv hne
  have h23 : key ∉ PLAIN_STRING_FIELDS ∧ key ∉ PLAIN_STRING_LIST_FIELDS := by
    rcases h4 with h | h
    · exact ⟨(singleFact_class key h).1, (singleFact_class key h).2.1⟩
    · subst h; exact ⟨cas_class.1, cas_class.2.1⟩
  obtain ⟨tseco, hts, htk⟩ := secFieldVal_obj_cases htov
  obtain ⟨sseco, hss, hsk⟩ := secFieldVal_obj_cases hlov
  have hloWF : PartialWF lo := hWF lo (hmem lo (by simp))
  have hsn : sseco.keys.Nodup := by
    have hW := hloWF sec hsec
    rw [hss] at hW
    exact hW
  constructor
  · rw [hval, List.map_cons, htov]
    have hpop : isPopulated key (.obj tobj) = true := by
      rw [isPopulated_other h23.1 h23.2]
      rfl
    rw [List.find?_cons_of_pos _ hpop]
    rfl
  · have hnemp : lo.extraction_result ≠ .nil := by
      intro h0
      rw [h0] at hss
      simp [getKey] at hss
    have hw : conflictMsg sec key ((getKey tobj "value").getD .null)
        ((getKey sobj "value").getD .null) lo.doc_type
        ∈ ([lo].foldl mergePartialStep (base.extraction_result, [])).2 := by
      show _ ∈ (mergePartialStep (base.extraction_result, []) lo).2
      unfold mergePartialStep
      rw [if_neg hnemp]
      exact mergeSections_warning lo.extraction_result lo.doc_type sec key hkey
        h23.1 h23.2 h4 tseco sseco tobj sobj hss hsn hsk htv hsv hne
        sectionNames base.extraction_result [] hsec hts htk
    exact mergeMulti_warning_mem g.partials base [lo] hsort _ hw

/-- A higher-priority TDS partial with `physical.density = Fact "1"`. -/
def c1hi : PartialExtraction :=
  { source_file := ["p", "a.pdf"], doc_type := "TDS",
    extraction_result :=
      .cons "physical"
        (.obj (.cons "density" (.obj (.cons "value" (.str "1") .nil)) .nil))
        .nil }

/-- A lower-priority SDS partial with `physical.density = Fact "2"`. -/
def c1lo : PartialExtraction :=
  { source_file := ["p", "b.pdf"], doc_type := "SDS",
    extraction_result :=
      .cons "physical"
        (.obj (.cons "density" (.obj (.cons "value" (.str "2") .nil)) .nil))
        .nil }

/-- The two-partial group with a density conflict. -/
def c1g : ProductGroup :=
  { product_name := "P", product_folder := ["p"], partials := [c1hi, c1lo] }

/-- Witness for claim C1: on the concrete conflicting group, the merge
keeps the TDS density Fact and carries the conflict warning naming the
discarded SDS value. -/
theorem merge_highest_priority_wins_witness :
    (∀ p ∈ c1g.partials, PartialWF p) ∧
    merge c1g = .ok (mergeMulti c1g.partials) ∧
    secFieldVal (mergeMulti c1g.partials) "physical" "density"
      = .obj (.cons "value" (.str "1") .nil) ∧
    Json.str (conflictMsg "physical" "density" (.str "1") (.str "2") "SDS")
      ∈ warningsList (mergeMulti c1g.partials) := by
  have h := merge_highest_priority_wins c1g "physical" "density" (by decide)
    (by decide) (by decide) c1hi [c1lo] rfl (by decide)
  have hb := h.2 c1lo (.cons "value" (.str "1") .nil)
    (.cons "value" (.str "2") .nil) rfl (by decide) rfl rfl (by decide)
    (by decide) (by decide)
  exact ⟨by decide, h.1.1, hb.1, hb.2⟩

/-! ## Claim C8: permutation invariance of merge -/

instance : DecidableRel distinctPrio := fun a b =>
  inferInstanceAs
    (Decidable (DOC_TYPE_PRIORITY a.doc_type ≠ DOC_TYPE_PRIORITY b.doc_type))

/-- An SDS partial with `physical.density = Fact "1"`. -/
def c8sds1 : PartialExtraction :=
  { source_file := ["p", "a.pdf"], doc_type := "SDS",
    extraction_result :=
      .cons "physical"
        (.obj (.cons "density" (.obj (.cons "value" (.str "1") .nil)) .nil))
        .nil }

/-- A second SDS partial with `physical.density = Fact "2"`. -/
def c8sds2 : PartialExtraction :=
  { source_file := ["p", "b.pdf"], doc_type := "SDS",
    extraction_result :=
      .cons "physical"
        (.obj (.cons "density" (.obj (.cons "value" (.str "2") .nil)) .nil))
        .nil }

/-- A TDS partial with `physical.density = Fact "3"`. -/
def c8tds : PartialExtraction :=
  { source_file := ["p", "c.pdf"], doc_type := "TDS",
    extraction_result :=
      .cons "physical"
        (.obj (.cons "density" (.obj (.cons "value" (.str "3") .nil)) .nil))
        .nil }

def c8g1 : ProductGroup :=
  { product_name := "P", product_folder := ["p"], partials := [c8sds1, c8sds2] }

def c8g2 : ProductGroup :=
  { product_name := "P", product_folder := ["p"], partials := [c8sds2, c8sds1] }

def c8h1 : ProductGroup :=
  { product_name := "P", product_folder := ["p"], partials := [c8sds1, c8tds] }

def c8h2 : ProductGroup :=
  { product_name := "P", product_folder := ["p"], partials := [c8tds, c8sds1] }

/-- Counterexample for claim C8 as stated: two same-doc-type partials with
conflicting density facts; swapping their order swaps which one the stable
descending sort places first, so the merged record changes. -/
theorem merge_reorder_counterexample :
    c8g2.partials.Perm c8g1.partials ∧ merge c8g1 ≠ merge c8g2 :=
  ⟨List.Perm.swap c8sds1 c8sds2 [], by decide⟩

/-- Claim C8, corrected: merge is invariant under permutation of the
partials when the group name is unchanged and the partials carry pairwise
distinct doc-type priorities (ties within a priority level are broken by
input order by the stable sort, so they are not invariant). -/
theorem merge_perm_invariant (g1 g2 : ProductGroup)
    (hname : g1.product_name = g2.product_name)
    (hp : g1.partials.Perm g2.partials)
    (hd : g1.partials.Pairwise distinctPrio) :
    merge g1 = merge g2 := by
  have hms : mergeMulti g1.partials = mergeMulti g2.partials :=
    mergeMulti_congr (sortPartials_eq_of_perm hp hd)
  have hlen := hp.length_eq
  unfold merge
  rcases h1 : g1.partials with _ | ⟨p, _ | ⟨q, r⟩⟩
  · rw [h1] at hp
    rw [hp.symm.eq_nil, hname]
  · rw [h1] at hp
    rw [(List.singleton_perm.1 hp).symm]
  · rcases h2 : g2.partials with _ | ⟨p2, _ | ⟨q2, r2⟩⟩
    · rw [h1, h2] at hlen; simp at hlen
    · rw [h1, h2] at hlen; simp at hlen
    · show Except.ok (mergeMulti (p :: q :: r))
        = Except.ok (mergeMulti (p2 :: q2 :: r2))
      rw [← h1, ← h2, hms]

/-- Witness for claim C8: swapping a TDS and an SDS partial (distinct
priorities) leaves the merged result unchanged. -/
theorem merge_perm_invariant_witness :
    (c8h1.partials.Perm c8h2.partials
      ∧ c8h1.partials.Pairwise distinctPrio)
    ∧ merge c8h1 = merge c8h2 :=
  ⟨⟨List.Perm.swap c8tds c8sds1 [], by decide⟩,
    merge_perm_invariant c8h1 c8h2 rfl (List.Perm.swap c8tds c8sds1 [])
      (by decide)⟩

/-! ## Claim C7: grouping by product folder -/

/-- The `document_info.brand` value read by the grouping scan. -/
def brandValP (p : PartialExtraction) : Json :=
  jGet ((getKey p.extraction_result "document_info").getD (.obj .nil)) "brand"

/-- The `identity.product_name` value read by the grouping scan. -/
def nameValP (p : PartialExtraction) : Json :=
  jGet ((getKey p.extraction_result "identity").getD (.obj .nil)) "product_name"

/-- A partial with a non-empty extraction dict and a truthy brand. -/
def hasBrandP (p : PartialExtraction) : Bool :=
  (p.extraction_result != .nil) && pyTruthy (brandValP p)

/-- A partial with a non-empty extraction dict and a truthy product name. -/
def hasNameP (p : PartialExtraction) : Bool :=
  (p.extraction_result != .nil) && pyTruthy (nameValP p)

/-- The group brand: the first truthy `document_info.brand`, default "". -/
def specBrand (gps : List PartialExtraction) : String :=
  ((gps.find? hasBrandP).map (fun p => jToStr (brandValP p))).getD ""

/-- The group product name as the code computes it: the last truthy
`identity.product_name` among the partials strictly before the first
branded one, defaulting to the folder basename. -/
def specName (f : List String) (gps : List PartialExtraction) : String :=
  ((((gps.takeWhile (fun p => !hasBrandP p)).filterMap
      (fun p => if hasNameP p then some (jToStr (nameValP p)) else none)).getLast?).getD
    (pathName f))

/-- First-occurrence deduplication, as Python dict insertion order keeps
the first appearance of each key. -/
def firstDedup : List (List String) → List (List String)
  | [] => []
  | f :: rest => f :: (firstDedup rest).filter (fun g => g ≠ f)

theorem getLastD_cons : ∀ (l : List String) (x d : String),
    ((x :: l).getLast?).getD d = (l.getLast?).getD x
  | [], _, _ => rfl
  | y :: l, x, d => by
    rw [List.getLast?_cons_cons, getLastD_cons l y d, getLastD_cons l y x]

theorem mem_firstDedup : ∀ (l : List (List String)) (a : List String),
    a ∈ firstDedup l ↔ a ∈ l
  | [], a => Iff.rfl
  | x :: l, a => by
    show a ∈ x :: (firstDedup l).filter (fun g => g ≠ x) ↔ _
    simp [List.mem_filter, mem_firstDedup l a]
    constructor
    · rintro (h | h)
      · exact Or.inl h
      · exact Or.inr h.1
    · rintro (h | h)
      · exact Or.inl h
      · by_cases hx : a = x
        · exact Or.inl hx
        · exact Or.inr ⟨h, hx⟩

theorem nodup_firstDedup : ∀ (l : List (List String)), (firstDedup l).Nodup
  | [] => List.nodup_nil
  | x :: l => by
    show (x :: (firstDedup l).filter (fun g => g ≠ x)).Nodup
    refine List.Nodup.cons ?_ (List.Nodup.filter _ (nodup_firstDedup l))
    intro hx
    have := (List.mem_filter.1 hx).2
    simp at this

theorem firstDedup_append_singleton :
    ∀ (l : List (List String)) (f : List String),
      firstDedup (l ++ [f])
        = firstDedup l ++ (if f ∈ l then [] else [f])
  | [], f => by simp [firstDedup]
  | x :: l, f => by
    show x :: (firstDedup (l ++ [f])).filter (fun g => g ≠ x)
        = (x :: (firstDedup l).filter (fun g => g ≠ x))
          ++ (if f ∈ x :: l then [] else [f])
    rw [firstDedup_append_singleton l f, List.filter_append]
    by_cases hfl : f ∈ l
    · simp [hfl]
    · by_cases hfx : f = x
      · simp [hfl, hfx]
      · simp [hfl, hfx]

/-- The name/brand scan computes: the brand of the first branded partial
(default ""), and the last truthy product name seen before it (default the
running name). -/
theorem nameBrandLoop_spec : ∀ (ps : List PartialExtraction) (pname : String),
    nameBrandLoop pname ps
      = (((ps.takeWhile (fun p => !hasBrandP p)).filterMap
            (fun p => if hasNameP p then some (jToStr (nameValP p))
              else none)).getLast?.getD pname,
         ((ps.find? hasBrandP).map (fun p => jToStr (brandValP p))).getD "")
  | [], pname => rfl
  | p :: rest, pname => by
    by_cases hemp : p.extraction_result = JsonObj.nil
    · have hb : hasBrandP p = false := by simp [hasBrandP, hemp]
      have hn : hasNameP p = false := by simp [hasNameP, hemp]
      unfold nameBrandLoop
      rw [if_neg (not_not_intro hemp)]
      rw [nameBrandLoop_spec rest pname]
      simp [List.takeWhile_cons, hb, hn]
    · by_cases hbr : pyTruthy (jGet ((getKey p.extraction_result
          "document_info").getD (.obj .nil)) "brand")
      · have hb : hasBrandP p = true := by
          simp [hasBrandP, brandValP, bne_iff_ne, hemp, hbr]
        unfold nameBrandLoop
        rw [if_pos hemp, if_pos hbr]
        simp [List.takeWhile_cons, hb, brandValP]
      · have hb : hasBrandP p = false := by simp [hasBrandP, brandValP, hbr]
        by_cases hnm : pyTruthy (jGet ((getKey p.extraction_result
            "identity").getD (.obj .nil)) "product_name")
        · have hn : hasNameP p = true := by
            simp [hasNameP, nameValP, bne_iff_ne, hemp, hnm]
          unfold nameBrandLoop
          rw [if_pos hemp, if_neg hbr, if_pos hnm]
          rw [nameBrandLoop_spec rest (jToStr (jGet ((getKey
            p.extraction_result "identity").getD (.obj .nil)) "product_name"))]
          simp [List.takeWhile_cons, hb, hn, getLastD_cons, nameValP]
        · have hn : hasNameP p = false := by simp [hasNameP, nameValP, hnm]
          unfold nameBrandLoop
          rw [if_pos hemp, if_neg hbr, if_neg hnm]
          rw [nameBrandLoop_spec rest pname]
          simp [List.takeWhile_cons, hb, hn]

theorem addToGroups_mem (filt : List String → List PartialExtraction)
    (fp : List String) (p : PartialExtraction) :
    ∀ (F : List (List String)), F.Nodup → fp ∈ F →
      addToGroups (F.map (fun f => (f, filt f))) fp p
        = F.map (fun f => (f, filt f ++ if fp = f then [p] else []))
  | [], _, hmem => absurd hmem (List.not_mem_nil fp)
  | f :: F, hnd, hmem => by
    rw [List.map_cons, List.map_cons]
    show (if f = fp then (f, filt f ++ [p]) :: F.map (fun f => (f, filt f))
        else (f, filt f) :: addToGroups (F.map (fun f => (f, filt f))) fp p)
      = _
    by_cases hf : f = fp
    · subst hf
      rw [if_pos rfl, if_pos rfl]
      refine congrArg _ ?_
      refine (List.map_congr_left ?_).symm
      intro a ha
      have hne : f ≠ a := fun h => (List.nodup_cons.1 hnd).1 (h ▸ ha)
      simp [hne]
    · have hmem2 : fp ∈ F := by
        rcases List.mem_cons.1 hmem with h | h
        · exact absurd h.symm hf
        · exact h
      rw [if_neg hf,
        addToGroups_mem filt fp p F (List.nodup_cons.1 hnd).2 hmem2,
        if_neg (fun h => hf h.symm)]
      rw [List.append_nil]

theorem addToGroups_notmem (fp : List String) (p : PartialExtraction) :
    ∀ (acc : List (List String × List PartialExtraction)),
      fp ∉ acc.map Prod.fst →
      addToGroups acc fp p = acc ++ [(fp, [p])]
  | [], _ => rfl
  | (f, gps) :: rest, hmem => by
    have hf : f ≠ fp := by
      intro h
      exact hmem (by rw [List.map_cons, h]; exact List.mem_cons_self fp _)
    have hmem2 : fp ∉ rest.map Prod.fst := by
      intro h
      exact hmem (by rw [List.map_cons]; exact List.mem_cons_of_mem _ h)
    show (if f = fp then (f, gps ++ [p]) :: rest
        else (f, gps) :: addToGroups rest fp p) = _
    rw [if_neg hf, addToGroups_notmem fp p rest hmem2]
    rfl

/-- The grouping fold partitions the partials by parent folder, folders in
first-appearance order, each bucket in input order. -/
theorem buildGroups_eq (ps : List PartialExtraction) :
    buildGroups ps
      = (firstDedup (ps.map (fun q => pathParent q.source_file))).map
          (fun f => (f, ps.filter (fun q => pathParent q.source_file = f))) := by
  induction ps using List.reverseRecOn with
  | nil => rfl
  | append_singleton qs p ih =>
    have hstep : buildGroups (qs ++ [p])
        = addToGroups (buildGroups qs) (pathParent p.source_file) p := by
      unfold buildGroups
      rw [List.foldl_append]
      rfl
    rw [hstep, ih, List.map_append]
    simp only [List.map_cons, List.map_nil]
    rw [firstDedup_append_singleton]
    by_cases hin : pathParent p.source_file
        ∈ qs.map (fun q => pathParent q.source_file)
    · rw [addToGroups_mem _ _ p _ (nodup_firstDedup _)
        ((mem_firstDedup _ _).2 hin)]
      rw [if_pos hin, List.append_nil]
      refine List.map_congr_left ?_
      intro a ha
      rw [List.filter_append]
      refine congrArg _ (congrArg _ ?_)
      simp [List.filter_cons, eq_comm]
    · have hnotm : pathParent p.source_file
          ∉ ((firstDedup (qs.map (fun q => pathParent q.source_file))).map
              (fun f =>
                (f, qs.filter (fun q => pathParent q.source_file = f)))).map
            Prod.fst := by
        rw [List.map_map]
        intro h
        exact hin ((mem_firstDedup _ _).1 (by simpa using h))
      rw [addToGroups_notmem _ p _ hnotm, if_neg hin, List.map_append]
      refine congrArg₂ _ ?_ ?_
      · refine List.map_congr_left ?_
        intro a ha
        have hne : pathParent p.source_file ≠ a := by
          intro h
          exact hin (h ▸ (mem_firstDedup _ _).1 ha)
        rw [List.filter_append]
        refine congrArg _ ?_
        simp [List.filter_cons, hne]
      · rw [List.map_cons, List.map_nil]
        have hfilt : qs.filter
            (fun q => pathParent q.source_file = pathParent p.source_file)
            = [] := by
          rw [List.filter_eq_nil_iff]
          intro q hq
          simp only [decide_eq_true_eq]
          intro h
          exact hin (h ▸ List.mem_map_of_mem _ hq)
        rw [List.filter_append, hfilt]
        simp [List.filter_cons]

/-- Claim C7, corrected: `group_by_product` partitions the partials by the
parent directory of `source_file` (folders in first-appearance order, each
bucket in input order); in each group, `brand` is the brand of the first
partial with a non-empty extraction dict and truthy `document_info.brand`,
and `product_name` is the LAST truthy `identity.product_name` among the
partials strictly before that first branded partial (not the first overall,
as the brand hit breaks the scan), defaulting to the folder basename. -/
theorem group_by_product_spec (ps : List PartialExtraction) :
    group_by_product ps
      = (firstDedup (ps.map (fun q => pathParent q.source_file))).map
          (fun f =>
            { product_name :=
                specName f (ps.filter (fun q => pathParent q.source_file = f)),
              product_folder := f,
              brand :=
                specBrand (ps.filter (fun q => pathParent q.source_file = f)),
              partials :=
                ps.filter (fun q => pathParent q.source_file = f) }) := by
  unfold group_by_product
  rw [buildGroups_eq, List.map_map]
  refine List.map_congr_left ?_
  intro a ha
  show ProductGroup.mk
      (nameBrandLoop (pathName a)
        (ps.filter (fun q => pathParent q.source_file = a))).1
      a
      (nameBrandLoop (pathName a)
        (ps.filter (fun q => pathParent q.source_file = a))).2
      (ps.filter (fun q => pathParent q.source_file = a)) = _
  rw [nameBrandLoop_spec]
  rfl

/-- A partial with populated product name "A" and no brand. -/
def c7a : PartialExtraction :=
  { source_file := ["p", "a.pdf"], doc_type := "TDS",
    extraction_result :=
      .cons "identity" (.obj (.cons "product_name" (.str "A") .nil)) .nil }

/-- A partial with populated product name "B" and no brand. -/
def c7b : PartialExtraction :=
  { source_file := ["p", "b.pdf"], doc_type := "SDS",
    extraction_result :=
      .cons "identity" (.obj (.cons "product_name" (.str "B") .nil)) .nil }

/-- Counterexample for claim C7 as stated: both partials of the folder have
a populated `identity.product_name` and no brand; the code names the group
after the LAST populated name "B", while the claim rule "first partial
whose identity.product_name is populated" yields "A". -/
theorem group_name_counterexample :
    ((group_by_product [c7a, c7b]).map (fun g => g.product_name) = ["B"])
    ∧ ((([c7a, c7b].find? hasNameP).map
          (fun p => jToStr (nameValP p))).getD
        (pathName (pathParent c7a.source_file)) = "A") :=
  ⟨rfl, rfl⟩

end Solvate
